import Mathlib

/-!
Verification of the persistent storage layer of the repository (txdb.cpp):
the coin-set store (CCoinsViewDB), the auxiliary index store (CBlockTreeDB),
the block-index loader and the audit scanner.

The underlying ordered key-value store is modelled as an association list of
structured keys and values, sorted strictly by the order-preserving byte
encoding of the keys (spec section 4.1: every composite key's natural scan
order equals lexicographic byte order; fixed-width big-endian components
compare like the numbers they encode, so each component is kept as one `Nat`
in the encoded list).  A cursor `Seek` positions at the first key not below
the target and `Next` walks the list, exactly the collaborator contract of
spec section 6.  Values that fail to deserialize are represented by a
wrong-variant or `corrupt` payload; a typed read yields `none` on them.
256-bit and 160-bit hashes are `Nat`s (0 is the null hash `uint256()`), and
monetary amounts are `Int` (`CAmount`).
-/

/-- Strict lexicographic order on encoded keys (byte strings). -/
def lexLt : List Nat → List Nat → Bool
  | _, [] => false
  | [], _ :: _ => true
  | a :: as, b :: bs => if a < b then true else if a = b then lexLt as bs else false

/-- A store is an association list sorted strictly by the key encoding. -/
abbrev StSorted {K V : Type} (enc : K → List Nat) (l : List (K × V)) : Prop :=
  l.Pairwise (fun a b => lexLt (enc a.1) (enc b.1) = true)

/-- Cursor `Seek`: drop every record whose encoded key is strictly below the
target, leaving the suffix starting at the first key at or after it. -/
def seekL {K V : Type} (enc : K → List Nat) (sk : List Nat) (l : List (K × V)) :
    List (K × V) :=
  l.dropWhile (fun kv => lexLt (enc kv.1) sk)

/-- Raw point lookup (`CDBWrapper::Read`/`Exists` before deserialization). -/
def dbLookup {K V : Type} [DecidableEq K] : List (K × V) → K → Option V
  | [], _ => none
  | (k, v) :: rest, q => if k = q then some v else dbLookup rest q

/-- The shared shape of the sequential-advance loops in txdb.cpp: while the
cursor is valid and the continue-condition `p` holds on the key, extract
(`GetValue`) an item and advance; a failing extraction is the hard error
`err`; a key failing `p` ends the scan successfully. -/
def scanG {K V I : Type} (p : K → Bool) (de : K → V → Option I) (err : String) :
    List (K × V) → Except String (List I)
  | [] => .ok []
  | (k, v) :: rest =>
    if p k then
      match de k v with
      | some it => (scanG p de err rest).map (fun l => it :: l)
      | none => .error err
    else .ok []

/-! ### Record payload types of the coin-set store (chainstate database) -/

/-- Transaction output (primitives/transaction.h, external to src): value and
locking script; a null output marks a spent slot. -/
structure CTxOut where
  nValue : Int
  scriptPubKey : List Nat
deriving DecidableEq

/-- Modelled from the spec: `CTxOut::IsNull` (primitives/transaction.h, not in
src); a null output is the placeholder left for a spent slot. -/
def CTxOut.IsNull (o : CTxOut) : Bool := o.nValue == -1

/-- Unspent-output set of one transaction (coins.h, external to src); only the
output vector is relevant to the storage layer. -/
structure CCoins where
  vout : List CTxOut
deriving DecidableEq

/-- Modelled from the spec: `CCoins::IsPruned` — zero remaining unspent
outputs (spec glossary: "Pruned"). -/
def CCoins.IsPruned (c : CCoins) : Bool := c.vout.all (fun o => o.IsNull)

/-- Incremental commitment tree snapshot (zcash/IncrementalMerkleTree.hpp,
external to src); only its default-constructed empty state matters here. -/
structure ZCIncrementalMerkleTree where
  commitments : List Nat
deriving DecidableEq

/-- The default-constructed (empty) incremental tree. -/
def ZCIncrementalMerkleTree.emptyTree : ZCIncrementalMerkleTree := ⟨[]⟩

/-- Modelled from the spec: the canonical empty-tree root, a fixed nonzero
digest constant that is never a stored row (spec section 3, invariant (c)). -/
def ZCIncrementalMerkleTree.empty_root : Nat := 1

/-- Keys of the coin-set store, one constructor per discriminator byte
(txdb.cpp lines 20-35). -/
inductive CKey
  | anchor (rt : Nat)        -- DB_ANCHOR 'A' = 65
  | nullifier (nf : Nat)     -- DB_NULLIFIER 's' = 115
  | coin (txid : Nat)        -- DB_COINS 'c' = 99
  | bestBlock                -- DB_BEST_BLOCK 'B' = 66
  | bestAnchor               -- DB_BEST_ANCHOR 'a' = 97
deriving DecidableEq

/-- Stored values of the coin-set store; `corrupt` stands for bytes that fail
to deserialize as any expected payload. -/
inductive CVal
  | tree (t : ZCIncrementalMerkleTree)
  | boolVal (b : Bool)
  | coins (c : CCoins)
  | hash (h : Nat)
  | corrupt
deriving DecidableEq

/-- Order-preserving encoding of coin-set store keys: discriminator byte first,
then the fixed-width big-endian payload components. -/
def encC : CKey → List Nat
  | .anchor rt => [65, rt]
  | .nullifier nf => [115, nf]
  | .coin txid => [99, txid]
  | .bestBlock => [66]
  | .bestAnchor => [97]

abbrev CDB := List (CKey × CVal)

namespace CCoinsViewDB

/-- The `db.Read(make_pair(DB_ANCHOR, rt), tree)` point read of GetAnchorAt. -/
def readAnchor (db : CDB) (rt : Nat) : Option ZCIncrementalMerkleTree :=
  match dbLookup db (CKey.anchor rt) with
  | some (CVal.tree t) => some t
  | _ => none

/-- CCoinsViewDB::GetAnchorAt (txdb.cpp lines 46-56): synthesize the empty
tree at the empty root, otherwise a point lookup. -/
def GetAnchorAt (db : CDB) (rt : Nat) : Option ZCIncrementalMerkleTree :=
  if rt = ZCIncrementalMerkleTree.empty_root then
    some ZCIncrementalMerkleTree.emptyTree
  else
    readAnchor db rt

/-- The `db.Read(make_pair(DB_NULLIFIER, nf), spent)` point read. -/
def readNullifier (db : CDB) (nf : Nat) : Option Bool :=
  match dbLookup db (CKey.nullifier nf) with
  | some (CVal.boolVal b) => some b
  | _ => none

/-- CCoinsViewDB::GetNullifier (txdb.cpp lines 58-63): returns whether the
read succeeded; the decoded boolean itself is discarded. -/
def GetNullifier (db : CDB) (nf : Nat) : Bool := (readNullifier db nf).isSome

/-- CCoinsViewDB::GetCoins (txdb.cpp lines 65-67). -/
def GetCoins (db : CDB) (txid : Nat) : Option CCoins :=
  match dbLookup db (CKey.coin txid) with
  | some (CVal.coins c) => some c
  | _ => none

/-- CCoinsViewDB::HaveCoins (txdb.cpp lines 69-71): bare key-existence test. -/
def HaveCoins (db : CDB) (txid : Nat) : Bool :=
  (dbLookup db (CKey.coin txid)).isSome

/-- CCoinsViewDB::GetBestBlock (txdb.cpp lines 73-78): null hash if unset. -/
def GetBestBlock (db : CDB) : Nat :=
  match dbLookup db CKey.bestBlock with
  | some (CVal.hash h) => h
  | _ => 0

end CCoinsViewDB

/-! ### The coin-set batch (CCoinsViewDB::BatchWrite) -/

/-- One operation of a `CDBBatch` against the coin-set store. -/
inductive CBOp
  | write (k : CKey) (v : CVal)
  | erase (k : CKey)
deriving DecidableEq

def CBOp.key : CBOp → CKey
  | .write k _ => k
  | .erase k => k

/-- Coin overlay entry (coins.h, external to src); `dirty` models the
`flags & CCoinsCacheEntry::DIRTY` test, per the spec's dirty/clean tagging. -/
structure CCoinsCacheEntry where
  coins : CCoins
  dirty : Bool
deriving DecidableEq

/-- Anchor overlay entry: `entered` and the DIRTY flag. -/
structure CAnchorsCacheEntry where
  tree : ZCIncrementalMerkleTree
  entered : Bool
  dirty : Bool
deriving DecidableEq

/-- Nullifier overlay entry: `entered` and the DIRTY flag. -/
structure CNullifiersCacheEntry where
  entered : Bool
  dirty : Bool
deriving DecidableEq

abbrev CCoinsMap := List (Nat × CCoinsCacheEntry)
abbrev CAnchorsMap := List (Nat × CAnchorsCacheEntry)
abbrev CNullifiersMap := List (Nat × CNullifiersCacheEntry)

/-- The first loop of BatchWrite (txdb.cpp lines 95-106): per coin entry,
dirty+pruned erases, dirty+unpruned writes, clean entries emit nothing. -/
def coinsLoopOps : CCoinsMap → List CBOp
  | [] => []
  | (txid, e) :: rest =>
    (if e.dirty then
      (if e.coins.IsPruned then [CBOp.erase (CKey.coin txid)]
       else [CBOp.write (CKey.coin txid) (CVal.coins e.coins)])
     else []) ++ coinsLoopOps rest

/-- The second loop of BatchWrite (txdb.cpp lines 108-119): per anchor entry,
dirty+not-entered erases, dirty+entered writes the tree. -/
def anchorsLoopOps : CAnchorsMap → List CBOp
  | [] => []
  | (rt, e) :: rest =>
    (if e.dirty then
      (if !e.entered then [CBOp.erase (CKey.anchor rt)]
       else [CBOp.write (CKey.anchor rt) (CVal.tree e.tree)])
     else []) ++ anchorsLoopOps rest

/-- The third loop of BatchWrite (txdb.cpp lines 121-131): per nullifier
entry, dirty+not-entered erases, dirty+entered writes the literal `true`. -/
def nullifiersLoopOps : CNullifiersMap → List CBOp
  | [] => []
  | (nf, e) :: rest =>
    (if e.dirty then
      (if !e.entered then [CBOp.erase (CKey.nullifier nf)]
       else [CBOp.write (CKey.nullifier nf) (CVal.boolVal true)])
     else []) ++ nullifiersLoopOps rest

/-- txdb.cpp lines 133-136: best-block / best-anchor pointers are written only
when the supplied hash is non-null. -/
def bestPointerOps (hashBlock hashAnchor : Nat) : List CBOp :=
  (if hashBlock ≠ 0 then [CBOp.write CKey.bestBlock (CVal.hash hashBlock)] else []) ++
  (if hashAnchor ≠ 0 then [CBOp.write CKey.bestAnchor (CVal.hash hashAnchor)] else [])

/-- A batch handed to `CDBWrapper::WriteBatch(batch, fSync)`: the operation
list and the durability flag. -/
structure CoinsBatchCommit where
  ops : List CBOp
  sync : Bool
deriving DecidableEq

/-- CCoinsViewDB::BatchWrite (txdb.cpp lines 87-140) as the batch it commits.
Modelled from the spec: the call `db.WriteBatch(batch)` leaves the underlying
durability argument at its default, and spec section 4.2 fixes that default:
"this batch is not forced-durable". -/
def BatchWriteCommit (mapCoins : CCoinsMap) (hashBlock hashAnchor : Nat)
    (mapAnchors : CAnchorsMap) (mapNullifiers : CNullifiersMap) : CoinsBatchCommit :=
  ⟨coinsLoopOps mapCoins ++ anchorsLoopOps mapAnchors ++
      nullifiersLoopOps mapNullifiers ++ bestPointerOps hashBlock hashAnchor,
    false⟩

/-- Applying one batch operation to the store contents (the KV store's atomic
batch semantics, spec section 6). -/
def applyCBOp (db : CDB) : CBOp → CDB
  | .write k v => (k, v) :: db.filter (fun p => !decide (p.1 = k))
  | .erase k => db.filter (fun p => !decide (p.1 = k))

def applyCBatch (db : CDB) (ops : List CBOp) : CDB := ops.foldl applyCBOp db

/-- The store contents after CCoinsViewDB::BatchWrite commits its batch. -/
def CCoinsViewDB.BatchWrite (db : CDB) (mapCoins : CCoinsMap)
    (hashBlock hashAnchor : Nat) (mapAnchors : CAnchorsMap)
    (mapNullifiers : CNullifiersMap) : CDB :=
  applyCBatch db
    (BatchWriteCommit mapCoins hashBlock hashAnchor mapAnchors mapNullifiers).ops

/-! ### The audit scanner (CCoinsViewDB::GetStats) -/

/-- One item fed to the `CHashWriter ss`; the content hash is modelled by its
input transcript (the hash function itself is external). -/
inductive HashItem
  | hashOf (h : Nat)
  | varint (n : Nat)
  | txout (o : CTxOut)
deriving DecidableEq

/-- Result of the inner output loop of GetStats (txdb.cpp lines 183-191) on
one transaction: hash-writer items, non-null-output count, value total. -/
structure OutFold where
  items : List HashItem
  nOut : Nat
  amount : Int
deriving DecidableEq

/-- The inner output loop of GetStats: each non-null output contributes its
1-based index as a varint and its serialized form, a count, and its value. -/
def outLoop (i : Nat) : List CTxOut → OutFold
  | [] => ⟨[], 0, 0⟩
  | o :: rest =>
    let r := outLoop (i + 1) rest
    if o.IsNull then r
    else ⟨HashItem.varint (i + 1) :: HashItem.txout o :: r.items,
      r.nOut + 1, r.amount + o.nValue⟩

/-- Accumulator of the GetStats cursor walk. -/
structure StatsAcc where
  items : List HashItem
  nTx : Nat
  nOut : Nat
  nSize : Nat
  amount : Int
deriving DecidableEq

/-- The cursor loop of GetStats (txdb.cpp lines 176-201): per coin record, the
output items terminated by the sentinel varint 0, one transaction counted,
`32 + GetValueSize()` bytes counted (`vsize` abstracts the serialized size);
a value failing to decode is the hard error; a non-coin key ends the scan. -/
def statsScan (vsize : CCoins → Nat) : List (CKey × CVal) → Except String StatsAcc
  | [] => .ok ⟨[], 0, 0, 0, 0⟩
  | (k, v) :: rest =>
    match k with
    | CKey.coin _ =>
      match v with
      | CVal.coins c =>
        (statsScan vsize rest).map (fun r =>
          let f := outLoop 0 c.vout
          ⟨f.items ++ HashItem.varint 0 :: r.items, r.nTx + 1, r.nOut + f.nOut,
            r.nSize + (32 + vsize c), r.amount + f.amount⟩)
      | _ => .error "CCoinsViewDB::GetStats() : unable to read value"
    | _ => .ok ⟨[], 0, 0, 0, 0⟩

/-- How CCoinsViewDB::GetStats can fail: the in-loop decode error, or the
unguarded `mapBlockIndex.find(stats.hashBlock)->second` dereference at
txdb.cpp line 204 when the best-block hash is not in the map (undefined
behaviour in the source, modelled as a distinguished failure). -/
inductive GetStatsFailure
  | readValue (msg : String)
  | mapBlockIndexMiss
deriving DecidableEq

/-- The statistics record filled by GetStats; `hashSerialized` is the content
hash, modelled by the full input transcript of the hash writer. -/
structure CCoinsStats where
  hashBlock : Nat
  nTransactions : Nat
  nTransactionOutputs : Nat
  nSerializedSize : Nat
  hashSerialized : List HashItem
  nHeight : Int
  nTotalAmount : Int
deriving DecidableEq

/-- CCoinsViewDB::GetStats (txdb.cpp lines 165-209): seek the cursor to the
coin discriminator, hash the best-block hash, run the scan, then resolve the
height through the in-memory block-index map. -/
def CCoinsViewDB.GetStats (db : CDB) (mapBlockIndex : Nat → Option Int)
    (vsize : CCoins → Nat) : Except GetStatsFailure CCoinsStats :=
  let hashBlock := CCoinsViewDB.GetBestBlock db
  match statsScan vsize (seekL encC [99] db) with
  | .error e => .error (GetStatsFailure.readValue e)
  | .ok acc =>
    match mapBlockIndex hashBlock with
    | none => .error GetStatsFailure.mapBlockIndexMiss
    | some h =>
      .ok ⟨hashBlock, acc.nTx, acc.nOut, acc.nSize,
        HashItem.hashOf hashBlock :: acc.items, h, acc.amount⟩

/-! ### Record types of the auxiliary index store (block-tree database) -/

/-- Composite address-index key (addressindex.h, external to src), ordered
type, address hash, height, txid, output index (spec section 3). -/
structure CAddressIndexKey where
  type : Nat
  hashBytes : Nat
  blockHeight : Nat
  txhash : Nat
  index : Nat
deriving DecidableEq

/-- Composite address-unspent key: type, address hash, txid, output index. -/
structure CAddressUnspentKey where
  type : Nat
  hashBytes : Nat
  txhash : Nat
  index : Nat
deriving DecidableEq

/-- Spent-index key: spent txid and output index. -/
structure CSpentIndexKey where
  txid : Nat
  outputIndex : Nat
deriving DecidableEq

/-- File/byte offset of a stored transaction. -/
structure CDiskTxPos where
  nFile : Nat
  nPos : Nat
  nTxOffset : Nat
deriving DecidableEq

/-- Per-file block statistics record. -/
structure CBlockFileInfo where
  nBlocks : Nat
  nSize : Nat
  nUndoSize : Nat
  nHeightFirst : Nat
  nHeightLast : Nat
  nTimeFirst : Nat
  nTimeLast : Nat
deriving DecidableEq

/-- Address-unspent value: amount, script, height. -/
structure CAddressUnspentValue where
  satoshis : Int
  script : List Nat
  blockHeight : Nat
deriving DecidableEq

/-- Modelled from the spec: `CAddressUnspentValue::IsNull` (spentindex.h, not
in src) — the sentinel "not unspent any more" value that erases its key. -/
def CAddressUnspentValue.IsNull (v : CAddressUnspentValue) : Bool := v.satoshis == -1

/-- Spent-index value: the spending location and destination. -/
structure CSpentIndexValue where
  txid : Nat
  inputIndex : Nat
  blockHeight : Nat
  satoshis : Int
  addressType : Nat
  addressHash : Nat
deriving DecidableEq

/-- Modelled from the spec: `CSpentIndexValue::IsNull` (spentindex.h, not in
src) — a null spending txid marks "not spent / rolled back" (spec section 3). -/
def CSpentIndexValue.IsNull (v : CSpentIndexValue) : Bool := v.txid == 0

/-- The header fields from which a block's identity hash is recomputed
(CBlockIndex::GetBlockHeader; the hash function itself is external). -/
structure CBlockHeaderFields where
  nVersion : Int
  hashPrevBlock : Nat
  hashMerkleRoot : Nat
  hashReserved : Nat
  nTime : Nat
  nBits : Nat
  nNonce : Nat
  nSolution : List Nat
deriving DecidableEq

/-- On-disk block-index record (CDiskBlockIndex, txdb.h, external to src).
Modelled from the spec: `blockHash` is the record's identity hash — the hash
under which the record is keyed and under which its graph node is inserted
(`diskindex.GetBlockHash()`; spec section 3 "Block Index Record" and
section 4.4). -/
structure CDiskBlockIndex where
  blockHash : Nat
  hashPrev : Nat
  nHeight : Int
  nFile : Int
  nDataPos : Nat
  nUndoPos : Nat
  hashAnchor : Nat
  nVersion : Int
  hashMerkleRoot : Nat
  hashReserved : Nat
  nTime : Nat
  nBits : Nat
  nNonce : Nat
  nSolution : List Nat
  nStatus : Nat
  nCachedBranchId : Option Nat
  nTx : Nat
  nSproutValue : Option Int
deriving DecidableEq

/-- The header rebuilt from the copied fields of a freshly loaded node
(`pindexNew->GetBlockHeader()`): its previous-hash is the hash under which
the parent placeholder was inserted, i.e. the stored `hashPrev`. -/
def CDiskBlockIndex.GetBlockHeader (d : CDiskBlockIndex) : CBlockHeaderFields :=
  ⟨d.nVersion, d.hashPrev, d.hashMerkleRoot, d.hashReserved, d.nTime, d.nBits,
    d.nNonce, d.nSolution⟩

/-- Keys of the auxiliary index store, one constructor per discriminator byte
(txdb.cpp lines 20-35); flag names are encoded as numbers. -/
inductive BKey
  | blockFiles (n : Nat)                      -- DB_BLOCK_FILES 'f' = 102
  | txIndex (txid : Nat)                      -- DB_TXINDEX 't' = 116
  | addressIndex (a : CAddressIndexKey)       -- DB_ADDRESSINDEX 'd' = 100
  | addressUnspent (a : CAddressUnspentKey)   -- DB_ADDRESSUNSPENTINDEX 'u' = 117
  | timestampIndex (ts : Nat) (blockHash : Nat) -- DB_TIMESTAMPINDEX 'S' = 83
  | spentIndex (s : CSpentIndexKey)           -- DB_SPENTINDEX 'p' = 112
  | blockIndex (h : Nat)                      -- DB_BLOCK_INDEX 'b' = 98
  | flagKey (name : Nat)                      -- DB_FLAG 'F' = 70
  | reindexFlag                               -- DB_REINDEX_FLAG 'R' = 82
  | lastBlock                                 -- DB_LAST_BLOCK 'l' = 108
deriving DecidableEq

/-- Stored values of the auxiliary index store. -/
inductive BVal
  | fileInfo (fi : CBlockFileInfo)
  | pos (p : CDiskTxPos)
  | amount (n : Int)
  | unspentVal (u : CAddressUnspentValue)
  | spentVal (s : CSpentIndexValue)
  | diskIndex (d : CDiskBlockIndex)
  | charVal (c : Nat)
  | nullVal
  | numVal (n : Nat)
  | corrupt
deriving DecidableEq

/-- Order-preserving encoding of auxiliary-store keys: discriminator byte
first, then the composite key components in their serialization order. -/
def encB : BKey → List Nat
  | .blockFiles n => [102, n]
  | .txIndex txid => [116, txid]
  | .addressIndex a => [100, a.type, a.hashBytes, a.blockHeight, a.txhash, a.index]
  | .addressUnspent a => [117, a.type, a.hashBytes, a.txhash, a.index]
  | .timestampIndex ts h => [83, ts, h]
  | .spentIndex s => [112, s.txid, s.outputIndex]
  | .blockIndex h => [98, h]
  | .flagKey name => [70, name]
  | .reindexFlag => [82]
  | .lastBlock => [108]

abbrev BDB := List (BKey × BVal)

/-! ### Batched writers of the auxiliary index store -/

/-- One operation of a `CDBBatch` against the auxiliary index store. -/
inductive BBOp
  | write (k : BKey) (v : BVal)
  | erase (k : BKey)
deriving DecidableEq

/-- A batch handed to `WriteBatch(batch, fSync)`: operations plus the
durability flag.  Where the source writes `WriteBatch(batch, true)` the flag
is `true`; where it writes `WriteBatch(batch)` the flag is `false` —
modelled from the spec for the omitted default argument (dbwrapper.h is not
in src; spec sections 4.3 and 5 fix which writers are forced-durable). -/
structure BlockBatchCommit where
  ops : List BBOp
  sync : Bool
deriving DecidableEq

namespace CBlockTreeDB

/-- The file-info loop of WriteBatchSync (txdb.cpp lines 213-215). -/
def fileInfoLoopOps : List (Nat × CBlockFileInfo) → List BBOp
  | [] => []
  | (n, fi) :: rest =>
    BBOp.write (BKey.blockFiles n) (BVal.fileInfo fi) :: fileInfoLoopOps rest

/-- The block-index loop of WriteBatchSync (txdb.cpp lines 217-219): one
record per block, keyed by the block's hash. -/
def blockInfoLoopOps : List CDiskBlockIndex → List BBOp
  | [] => []
  | b :: rest =>
    BBOp.write (BKey.blockIndex b.blockHash) (BVal.diskIndex b) :: blockInfoLoopOps rest

/-- CBlockTreeDB::WriteBatchSync (txdb.cpp lines 211-221): file infos, the
last-file pointer, block-index records; committed with `fSync = true`. -/
def WriteBatchSync (fileInfo : List (Nat × CBlockFileInfo)) (nLastFile : Nat)
    (blockinfo : List CDiskBlockIndex) : BlockBatchCommit :=
  ⟨fileInfoLoopOps fileInfo ++
      BBOp.write BKey.lastBlock (BVal.numVal nLastFile) :: blockInfoLoopOps blockinfo,
    true⟩

/-- CBlockTreeDB::EraseBatchSync (txdb.cpp lines 223-229): committed with
`fSync = true`. -/
def EraseBatchSync (blockinfo : List CDiskBlockIndex) : BlockBatchCommit :=
  ⟨blockinfo.map (fun b => BBOp.erase (BKey.blockIndex b.blockHash)), true⟩

/-- CBlockTreeDB::WriteTxIndex (txdb.cpp lines 235-240). -/
def WriteTxIndex (vect : List (Nat × CDiskTxPos)) : BlockBatchCommit :=
  ⟨vect.map (fun p => BBOp.write (BKey.txIndex p.1) (BVal.pos p.2)), false⟩

/-- CBlockTreeDB::UpdateSpentIndex (txdb.cpp lines 246-256): null values
erase their key, others upsert. -/
def UpdateSpentIndex (vect : List (CSpentIndexKey × CSpentIndexValue)) :
    BlockBatchCommit :=
  ⟨vect.map (fun p =>
      if p.2.IsNull then BBOp.erase (BKey.spentIndex p.1)
      else BBOp.write (BKey.spentIndex p.1) (BVal.spentVal p.2)), false⟩

/-- CBlockTreeDB::UpdateAddressUnspentIndex (txdb.cpp lines 258-268): same
null-erase / else-upsert rule. -/
def UpdateAddressUnspentIndex
    (vect : List (CAddressUnspentKey × CAddressUnspentValue)) : BlockBatchCommit :=
  ⟨vect.map (fun p =>
      if p.2.IsNull then BBOp.erase (BKey.addressUnspent p.1)
      else BBOp.write (BKey.addressUnspent p.1) (BVal.unspentVal p.2)), false⟩

/-- CBlockTreeDB::WriteAddressIndex (txdb.cpp lines 296-301). -/
def WriteAddressIndex (vect : List (CAddressIndexKey × Int)) : BlockBatchCommit :=
  ⟨vect.map (fun p => BBOp.write (BKey.addressIndex p.1) (BVal.amount p.2)), false⟩

/-- CBlockTreeDB::EraseAddressIndex (txdb.cpp lines 303-308). -/
def EraseAddressIndex (vect : List (CAddressIndexKey × Int)) : BlockBatchCommit :=
  ⟨vect.map (fun p => BBOp.erase (BKey.addressIndex p.1)), false⟩

/-- CBlockTreeDB::WriteTimestampIndex (txdb.cpp lines 344-348): writes a NULL
marker value. -/
def WriteTimestampIndex (ts blockHash : Nat) : BlockBatchCommit :=
  ⟨[BBOp.write (BKey.timestampIndex ts blockHash) BVal.nullVal], false⟩

/-! ### Range readers of the auxiliary index store -/

/-- The cursor loop of ReadAddressUnspentIndex (txdb.cpp lines 277-291): the
continue-condition checks the discriminator and the address hash (the index
type is not rechecked); a value failing to decode is the hard error. -/
def auScan (addressHash : Nat) :
    List (BKey × BVal) → Except String (List (CAddressUnspentKey × CAddressUnspentValue))
  | [] => .ok []
  | (k, v) :: rest =>
    match k with
    | BKey.addressUnspent a =>
      if a.hashBytes = addressHash then
        match v with
        | BVal.unspentVal nv =>
          (auScan addressHash rest).map (fun l => (a, nv) :: l)
        | _ => .error "failed to get address unspent value"
      else .ok []
    | _ => .ok []

/-- CBlockTreeDB::ReadAddressUnspentIndex (txdb.cpp lines 270-294): seek to
`(DB_ADDRESSUNSPENTINDEX, CAddressIndexIteratorKey(type, addressHash))`, the
encoded (discriminator, type, address) lower bound, then run the loop. -/
def ReadAddressUnspentIndex (db : BDB) (addressHash : Nat) (type : Nat) :
    Except String (List (CAddressUnspentKey × CAddressUnspentValue)) :=
  auScan addressHash (seekL encB [117, type, addressHash] db)

/-- The cursor loop of ReadAddressIndex (txdb.cpp lines 322-339): continue on
a matching discriminator and address hash; with a positive end bound, stop
once a record's height exceeds it; a value failing to decode is the error. -/
def aiScan (addressHash : Nat) (endHeight : Nat) :
    List (BKey × BVal) → Except String (List (CAddressIndexKey × Int))
  | [] => .ok []
  | (k, v) :: rest =>
    match k with
    | BKey.addressIndex a =>
      if a.hashBytes = addressHash then
        if 0 < endHeight ∧ endHeight < a.blockHeight then .ok []
        else
          match v with
          | BVal.amount n =>
            (aiScan addressHash endHeight rest).map (fun l => (a, n) :: l)
          | _ => .error "failed to get address index value"
      else .ok []
    | _ => .ok []

/-- CBlockTreeDB::ReadAddressIndex (txdb.cpp lines 310-342): with both bounds
positive, seek to the (discriminator, type, address, start-height) lower
bound, otherwise to the (discriminator, type, address) lower bound. -/
def ReadAddressIndex (db : BDB) (addressHash : Nat) (type : Nat)
    (startHeight endHeight : Nat) : Except String (List (CAddressIndexKey × Int)) :=
  if 0 < startHeight ∧ 0 < endHeight then
    aiScan addressHash endHeight (seekL encB [100, type, addressHash, startHeight] db)
  else
    aiScan addressHash endHeight (seekL encB [100, type, addressHash] db)

/-- The cursor loop of ReadTimestampIndex (txdb.cpp lines 356-365): continue
while the discriminator matches and the timestamp is at most `high`; the
value is never read. -/
def tsScan (high : Nat) : List (BKey × BVal) → List Nat
  | [] => []
  | (k, _) :: rest =>
    match k with
    | BKey.timestampIndex ts h => if ts ≤ high then h :: tsScan high rest else []
    | _ => []

/-- CBlockTreeDB::ReadTimestampIndex (txdb.cpp lines 350-368): seek to the
(discriminator, low) lower bound, then collect block hashes. -/
def ReadTimestampIndex (db : BDB) (high low : Nat) : List Nat :=
  tsScan high (seekL encB [83, low] db)

end CBlockTreeDB

/-! ### The block-index loader (CBlockTreeDB::LoadBlockIndexGuts) -/

/-- One in-memory block-index graph node (CBlockIndex, chain.h, external to
src): the parent reference is kept as the parent's hash. -/
structure CBlockIndexNode where
  pprev : Option Nat
  nHeight : Int
  nFile : Int
  nDataPos : Nat
  nUndoPos : Nat
  hashAnchor : Nat
  nVersion : Int
  hashMerkleRoot : Nat
  hashReserved : Nat
  nTime : Nat
  nBits : Nat
  nNonce : Nat
  nSolution : List Nat
  nStatus : Nat
  nCachedBranchId : Option Nat
  nTx : Nat
  nSproutValue : Option Int
deriving DecidableEq

/-- A default-constructed placeholder node. -/
def emptyBlockIndexNode : CBlockIndexNode :=
  ⟨none, 0, 0, 0, 0, 0, 0, 0, 0, 0, 0, 0, [], 0, none, 0, none⟩

abbrev BlockMap := List (Nat × CBlockIndexNode)

/-- Modelled from the spec: `InsertBlockIndex` (main.cpp, not in src) — the
hash-keyed arena of spec section 9: a null hash yields no node, a known hash
returns the existing node, an unknown hash creates a placeholder. -/
def InsertBlockIndex (m : BlockMap) (h : Nat) : BlockMap :=
  if h = 0 then m
  else
    match dbLookup m h with
    | some _ => m
    | none => (h, emptyBlockIndexNode) :: m

/-- Overwrite the node stored under `h` (the field assignments through
`pindexNew`). -/
def blockMapSet (m : BlockMap) (h : Nat) (n : CBlockIndexNode) : BlockMap :=
  (h, n) :: m.filter (fun p => !decide (p.1 = h))

/-- The node contents copied from a decoded disk record (txdb.cpp lines
396-413). -/
def nodeOfDiskIndex (d : CDiskBlockIndex) : CBlockIndexNode :=
  ⟨if d.hashPrev = 0 then none else some d.hashPrev, d.nHeight, d.nFile,
    d.nDataPos, d.nUndoPos, d.hashAnchor, d.nVersion, d.hashMerkleRoot,
    d.hashReserved, d.nTime, d.nBits, d.nNonce, d.nSolution, d.nStatus,
    d.nCachedBranchId, d.nTx, d.nSproutValue⟩

/-- The cursor loop of LoadBlockIndexGuts (txdb.cpp lines 389-430): per
block-index record, decode it, insert the node and its parent placeholder,
copy the fields, then validate — the recomputed header hash must equal the
record's block hash and the proof-of-work check must pass — before
advancing; any failure aborts the whole load.  `hashHeader` abstracts the
external header-hash function and `checkProofOfWork` the external
consensus check. -/
def loadGutsScan (hashHeader : CBlockHeaderFields → Nat)
    (checkProofOfWork : Nat → Nat → Bool) :
    BlockMap → List (BKey × BVal) → Except String BlockMap
  | m, [] => .ok m
  | m, (k, v) :: rest =>
    match k with
    | BKey.blockIndex _ =>
      match v with
      | BVal.diskIndex d =>
        let m1 := InsertBlockIndex m d.blockHash
        let m2 := InsertBlockIndex m1 d.hashPrev
        let m3 := blockMapSet m2 d.blockHash (nodeOfDiskIndex d)
        if hashHeader d.GetBlockHeader ≠ d.blockHash then
          .error "LoadBlockIndex(): block header inconsistency detected"
        else if checkProofOfWork d.blockHash d.nBits = false then
          .error "LoadBlockIndex(): CheckProofOfWork failed"
        else loadGutsScan hashHeader checkProofOfWork m3 rest
      | _ => .error "LoadBlockIndex() : failed to read value"
    | _ => .ok m

/-- CBlockTreeDB::LoadBlockIndexGuts (txdb.cpp lines 382-433): seek to
`(DB_BLOCK_INDEX, uint256())` and run the loop on an empty map. -/
def CBlockTreeDB.LoadBlockIndexGuts (hashHeader : CBlockHeaderFields → Nat)
    (checkProofOfWork : Nat → Nat → Bool) (db : BDB) : Except String BlockMap :=
  loadGutsScan hashHeader checkProofOfWork [] (seekL encB [98, 0] db)

/-- Whether a stored block-index value decodes and passes both consistency
checks of the loader. -/
def passesChecks (hashHeader : CBlockHeaderFields → Nat)
    (checkProofOfWork : Nat → Nat → Bool) (v : BVal) : Bool :=
  match v with
  | BVal.diskIndex d =>
    hashHeader d.GetBlockHeader == d.blockHash && checkProofOfWork d.blockHash d.nBits
  | _ => false

/-! ### Claim-side match predicates and per-entry batch characterizations -/

/-- Per-entry characterization of the coin loop (spec section 4.2 `apply`):
dirty+pruned gives a delete, dirty+unpruned an upsert, clean gives nothing. -/
def coinEntryOpSpec (p : Nat × CCoinsCacheEntry) : Option CBOp :=
  if p.2.dirty then
    some (if p.2.coins.IsPruned then CBOp.erase (CKey.coin p.1)
          else CBOp.write (CKey.coin p.1) (CVal.coins p.2.coins))
  else none

/-- Per-entry characterization of the anchor loop: dirty+entered upserts,
dirty+not-entered deletes, clean gives nothing. -/
def anchorEntryOpSpec (p : Nat × CAnchorsCacheEntry) : Option CBOp :=
  if p.2.dirty then
    some (if p.2.entered then CBOp.write (CKey.anchor p.1) (CVal.tree p.2.tree)
          else CBOp.erase (CKey.anchor p.1))
  else none

/-- Per-entry characterization of the nullifier loop. -/
def nullifierEntryOpSpec (p : Nat × CNullifiersCacheEntry) : Option CBOp :=
  if p.2.dirty then
    some (if p.2.entered then CBOp.write (CKey.nullifier p.1) (CVal.boolVal true)
          else CBOp.erase (CKey.nullifier p.1))
  else none

/-- Continue-condition of the timestamp scan as written in the source. -/
def tsContinue (high : Nat) (k : BKey) : Bool :=
  match k with
  | BKey.timestampIndex ts _ => decide (ts ≤ high)
  | _ => false

/-- Extraction step of the timestamp scan (the block hash from the key). -/
def tsExtract (k : BKey) (_ : BVal) : Option Nat :=
  match k with
  | BKey.timestampIndex _ h => some h
  | _ => none

/-- Claim-side window predicate of C5: a timestamp record with
`low ≤ timestamp ≤ high`. -/
def tsInWindow (low high : Nat) (k : BKey) : Bool :=
  match k with
  | BKey.timestampIndex ts _ => decide (low ≤ ts) && decide (ts ≤ high)
  | _ => false

/-- Continue-condition of the address-unspent scan as written in the source:
discriminator and address hash only. -/
def auContinue (addressHash : Nat) (k : BKey) : Bool :=
  match k with
  | BKey.addressUnspent a => a.hashBytes == addressHash
  | _ => false

/-- Extraction step of the address-unspent scan. -/
def auExtract (k : BKey) (v : BVal) :
    Option (CAddressUnspentKey × CAddressUnspentValue) :=
  match k, v with
  | BKey.addressUnspent a, BVal.unspentVal nv => some (a, nv)
  | _, _ => none

/-- Claim-side match predicate of C6: an address-unspent record carrying both
the given index type and the given address hash. -/
def auMatches (type addressHash : Nat) (k : BKey) : Bool :=
  match k with
  | BKey.addressUnspent a => a.type == type && a.hashBytes == addressHash
  | _ => false

/-- Continue-condition of the address-index scan as written in the source:
discriminator and address hash, plus the positive end-height cutoff. -/
def aiContinue (addressHash endHeight : Nat) (k : BKey) : Bool :=
  match k with
  | BKey.addressIndex a =>
    a.hashBytes == addressHash &&
      !(decide (0 < endHeight) && decide (endHeight < a.blockHeight))
  | _ => false

/-- Extraction step of the address-index scan. -/
def aiExtract (k : BKey) (v : BVal) : Option (CAddressIndexKey × Int) :=
  match k, v with
  | BKey.addressIndex a, BVal.amount n => some (a, n)
  | _, _ => none

/-- Claim-side window predicate of C4: an address-index record for the given
type and address whose height lies in the inclusive window. -/
def aiInWindow (type addressHash startHeight endHeight : Nat) (k : BKey) : Bool :=
  match k with
  | BKey.addressIndex a =>
    a.type == type && a.hashBytes == addressHash &&
      decide (startHeight ≤ a.blockHeight) && decide (a.blockHeight ≤ endHeight)
  | _ => false

/-- Continue-condition of the audit scan: the coin discriminator. -/
def coinContinue (k : CKey) : Bool :=
  match k with
  | CKey.coin _ => true
  | _ => false

/-- Extraction step of the audit scan: the decoded coin record. -/
def coinExtract (_ : CKey) (v : CVal) : Option CCoins :=
  match v with
  | CVal.coins c => some c
  | _ => none

/-- Folding a list of decoded coin records into the audit accumulator, the
spec-side characterization of the audit scan (spec section 4.5). -/
def statsFold (vsize : CCoins → Nat) (cs : List CCoins) : StatsAcc :=
  cs.foldr (fun c r =>
    let f := outLoop 0 c.vout
    ⟨f.items ++ HashItem.varint 0 :: r.items, r.nTx + 1, r.nOut + f.nOut,
      r.nSize + (32 + vsize c), r.amount + f.amount⟩) ⟨[], 0, 0, 0, 0⟩

/-- Uniformity hypothesis for C6: every stored address-unspent record
carrying the given address hash has the given index type. -/
def auTypeUniform (type addressHash : Nat) (k : BKey) : Bool :=
  match k with
  | BKey.addressUnspent a => !(a.hashBytes == addressHash) || (a.type == type)
  | _ => true

/-- Uniformity hypothesis for C4: every stored address-index record carrying
the given address hash has the given index type. -/
def aiTypeUniform (type addressHash : Nat) (k : BKey) : Bool :=
  match k with
  | BKey.addressIndex a => !(a.hashBytes == addressHash) || (a.type == type)
  | _ => true

/-- Ascending height order with ties broken by txid then output index, the
order claimed for the address-index reader's result. -/
def aiAscending (x y : CAddressIndexKey × Int) : Prop :=
  x.1.blockHeight < y.1.blockHeight ∨
    (x.1.blockHeight = y.1.blockHeight ∧
      (x.1.txhash < y.1.txhash ∨ (x.1.txhash = y.1.txhash ∧ x.1.index < y.1.index)))

/-- Decoding a stored block-index value (`pcursor->GetValue(diskindex)`). -/
def decodeDiskIndex : BVal → Option CDiskBlockIndex
  | BVal.diskIndex d => some d
  | _ => none

/-- The statistics record the audit scan is claimed to produce from the list
of decoded coin records (spec section 4.5). -/
def statsSpec (hashBlock : Nat) (nHeight : Int) (vsize : CCoins → Nat)
    (cs : List CCoins) : CCoinsStats :=
  let acc := statsFold vsize cs
  ⟨hashBlock, acc.nTx, acc.nOut, acc.nSize,
    HashItem.hashOf hashBlock :: acc.items, nHeight, acc.amount⟩

/-! ## Theorems -/

theorem lexLt_nil_right (a : List Nat) : lexLt a [] = false := by
  cases a <;> rfl

theorem lexLt_cons (a b : Nat) (as bs : List Nat) :
    lexLt (a :: as) (b :: bs) =
      (if a < b then true else if a = b then lexLt as bs else false) := rfl

theorem lexLt_trans : ∀ (a b c : List Nat),
    lexLt a b = true → lexLt b c = true → lexLt a c = true := by
  intro a
  induction a with
  | nil =>
    intro b c h1 h2
    cases b with
    | nil => simp [lexLt] at h1
    | cons y ys =>
      cases c with
      | nil => simp [lexLt] at h2
      | cons z zs => rfl
  | cons x xs ih =>
    intro b c h1 h2
    cases b with
    | nil => simp [lexLt] at h1
    | cons y ys =>
      cases c with
      | nil => simp [lexLt] at h2
      | cons z zs =>
        rw [lexLt_cons] at h1 h2 ⊢
        split_ifs at h1 h2 ⊢ with hab hab' hbc hbc' habc habc'
        all_goals simp_all
        all_goals try omega
        exact ih ys zs h1 h2

theorem lexLt_head {a b : Nat} {as bs : List Nat}
    (h : lexLt (a :: as) (b :: bs) = true) : a ≤ b := by
  rw [lexLt_cons] at h
  split_ifs at h <;> omega

theorem not_lexLt_head {a b : Nat} {as bs : List Nat}
    (h : lexLt (a :: as) (b :: bs) = false) : b ≤ a := by
  rw [lexLt_cons] at h
  split_ifs at h <;> omega

theorem exceptMap_ok {ε α β : Type} (f : α → β) (a : α) :
    (Except.ok a : Except ε α).map f = .ok (f a) := rfl

theorem exceptMap_error {ε α β : Type} (f : α → β) (e : ε) :
    (Except.error e : Except ε α).map f = .error e := rfl

theorem exceptMap_map {ε α β γ : Type} (f : α → β) (g : β → γ) (x : Except ε α) :
    (x.map f).map g = x.map (fun a => g (f a)) := by
  cases x <;> rfl

theorem mem_seekL {K V : Type} (enc : K → List Nat) (sk : List Nat)
    {l : List (K × V)} {kv : K × V} (h : kv ∈ l)
    (hf : lexLt (enc kv.1) sk = false) : kv ∈ seekL enc sk l := by
  induction l with
  | nil => simp at h
  | cons a t ih =>
    rw [seekL, List.dropWhile_cons]
    split
    · rcases List.mem_cons.mp h with h' | h'
      · subst h'; simp_all
      · exact ih h'
    · exact h

/-- Every record in the suffix produced by `Seek` sits at or after the target. -/
theorem seekL_ge {K V : Type} (enc : K → List Nat) (sk : List Nat)
    (l : List (K × V)) (hs : StSorted enc l) :
    ∀ kv ∈ seekL enc sk l, lexLt (enc kv.1) sk = false := by
  induction l with
  | nil => simp [seekL]
  | cons a t ih =>
    obtain ⟨hrel, hs'⟩ := List.pairwise_cons.mp hs
    rw [seekL, List.dropWhile_cons]
    split
    · exact ih hs'
    · intro kv hkv
      rcases List.mem_cons.mp hkv with h' | h'
      · subst h'; simp_all
      · rcases hlt : lexLt (enc kv.1) sk with _ | _
        · rfl
        · exfalso
          have : lexLt (enc a.1) sk = true := lexLt_trans _ _ _ (hrel kv h') hlt
          simp_all

theorem seekL_sorted {K V : Type} (enc : K → List Nat) (sk : List Nat)
    {l : List (K × V)} (hs : StSorted enc l) : StSorted enc (seekL enc sk l) :=
  List.Pairwise.sublist (List.dropWhile_sublist _) hs

/-- Running a scan over a suffix in which every record is at or after the seek
target: if the continue-condition agrees with the claimed match predicate
`full` there, `full` keys never fail to decode, and the continue-condition can
never become true again once it failed (the table region is contiguous), the
loop collects exactly the records satisfying `full`. -/
theorem scanG_run {K V I : Type} (enc : K → List Nat) (p : K → Bool)
    (de : K → V → Option I) (err : String) (full : K → Bool) (sk : List Nat) :
    ∀ (l : List (K × V)),
      StSorted enc l →
      (∀ kv ∈ l, lexLt (enc kv.1) sk = false) →
      (∀ kv ∈ l, lexLt (enc kv.1) sk = false → p kv.1 = full kv.1) →
      (∀ kv kv2, kv ∈ l → kv2 ∈ l → lexLt (enc kv.1) sk = false → p kv.1 = false →
        lexLt (enc kv.1) (enc kv2.1) = true → p kv2.1 = false) →
      (∀ kv ∈ l, full kv.1 = true → (de kv.1 kv.2).isSome = true) →
      scanG p de err l =
        .ok (l.filterMap (fun kv => if full kv.1 then de kv.1 kv.2 else none)) := by
  intro l
  induction l with
  | nil => intro _ _ _ _ _; rfl
  | cons a t ih =>
    intro hs hge h2 h3 h4
    obtain ⟨hrel, hs'⟩ := List.pairwise_cons.mp hs
    obtain ⟨k, v⟩ := a
    have hks : lexLt (enc k) sk = false := hge _ (List.mem_cons_self _ _)
    have hpfull : p k = full k := h2 _ (List.mem_cons_self _ _) hks
    rcases hp : p k with _ | _
    · -- continue-condition fails on the head: the scan stops; no later record
      -- can satisfy `full` because `p` never recovers and agrees with `full`.
      have hfull : full k = false := by rw [← hpfull]; exact hp
      have hnil : t.filterMap
          (fun kv => if full kv.1 then de kv.1 kv.2 else none) = [] := by
        rw [List.filterMap_eq_nil_iff]
        intro kv hkv
        have hp2 : p kv.1 = false :=
          h3 (k, v) kv (List.mem_cons_self _ _) (List.mem_cons_of_mem _ hkv)
            hks hp (hrel kv hkv)
        have : full kv.1 = false := by
          rw [← h2 kv (List.mem_cons_of_mem _ hkv) (hge kv (List.mem_cons_of_mem _ hkv))]
          exact hp2
        simp [this]
      simp [scanG, hp, List.filterMap_cons, hfull, hnil]
    · -- continue-condition holds: decode must succeed; recurse.
      have hfull : full k = true := by rw [← hpfull]; exact hp
      have hde : (de k v).isSome = true := h4 (k, v) (List.mem_cons_self _ _) hfull
      obtain ⟨it, hit⟩ := Option.isSome_iff_exists.mp hde
      have ihres := ih hs' (fun kv hkv => hge kv (List.mem_cons_of_mem _ hkv))
        (fun kv hkv => h2 kv (List.mem_cons_of_mem _ hkv))
        (fun kv kv2 hkv hkv2 => h3 kv kv2 (List.mem_cons_of_mem _ hkv)
          (List.mem_cons_of_mem _ hkv2))
        (fun kv hkv => h4 kv (List.mem_cons_of_mem _ hkv))
      simp [scanG, hp, hit, ihres, List.filterMap_cons, hfull, exceptMap_ok]

/-- Master lemma for the range readers: seek to a lower bound then advance
while the continue-condition holds collects exactly the records of the whole
(sorted) store satisfying the match predicate `full`, provided keys below the
seek target never satisfy `full`, the continue-condition agrees with `full`
at or after the target, and the continue-condition is contiguous. -/
theorem scanG_seek {K V I : Type} (enc : K → List Nat) (p : K → Bool)
    (de : K → V → Option I) (err : String) (full : K → Bool) (sk : List Nat) :
    ∀ (l : List (K × V)),
      StSorted enc l →
      (∀ kv ∈ l, lexLt (enc kv.1) sk = true → full kv.1 = false) →
      (∀ kv ∈ l, lexLt (enc kv.1) sk = false → p kv.1 = full kv.1) →
      (∀ kv kv2, kv ∈ l → kv2 ∈ l → lexLt (enc kv.1) sk = false → p kv.1 = false →
        lexLt (enc kv.1) (enc kv2.1) = true → p kv2.1 = false) →
      (∀ kv ∈ l, full kv.1 = true → (de kv.1 kv.2).isSome = true) →
      scanG p de err (seekL enc sk l) =
        .ok (l.filterMap (fun kv => if full kv.1 then de kv.1 kv.2 else none)) := by
  intro l
  induction l with
  | nil => intro _ _ _ _ _; rfl
  | cons a t ih =>
    intro hs h1 h2 h3 h4
    obtain ⟨hrel, hs'⟩ := List.pairwise_cons.mp hs
    rcases hd : lexLt (enc a.1) sk with _ | _
    · -- the head is at or after the seek target: the whole list is the suffix.
      have hseek : seekL enc sk (a :: t) = a :: t := by
        rw [seekL, List.dropWhile_cons]
        simp [hd]
      rw [hseek]
      have hge : ∀ kv ∈ a :: t, lexLt (enc kv.1) sk = false := by
        intro kv hkv
        rcases List.mem_cons.mp hkv with h' | h'
        · subst h'; exact hd
        · rcases hlt : lexLt (enc kv.1) sk with _ | _
          · rfl
          · exfalso
            have : lexLt (enc a.1) sk = true := lexLt_trans _ _ _ (hrel kv h') hlt
            simp_all
      exact scanG_run enc p de err full sk (a :: t) hs hge h2 h3 h4
    · -- the head is dropped by the seek; it cannot satisfy `full`.
      have hfull : full a.1 = false := h1 a (List.mem_cons_self _ _) hd
      have hseek : seekL enc sk (a :: t) = seekL enc sk t := by
        rw [seekL, List.dropWhile_cons]
        simp [hd, seekL]
      rw [hseek]
      have ihres := ih hs' (fun kv hkv => h1 kv (List.mem_cons_of_mem _ hkv))
        (fun kv hkv => h2 kv (List.mem_cons_of_mem _ hkv))
        (fun kv kv2 hkv hkv2 => h3 kv kv2 (List.mem_cons_of_mem _ hkv)
          (List.mem_cons_of_mem _ hkv2))
        (fun kv hkv => h4 kv (List.mem_cons_of_mem _ hkv))
      simp [ihres, List.filterMap_cons, hfull]

/-! ## Point-lookup and batch-application lemmas -/

theorem dbLookup_filter_ne {K V : Type} [DecidableEq K] (db : List (K × V))
    (k q : K) (hne : k ≠ q) :
    dbLookup (db.filter (fun p => !decide (p.1 = k))) q = dbLookup db q := by
  induction db with
  | nil => rfl
  | cons a t ih =>
    obtain ⟨k', v'⟩ := a
    by_cases hk : k' = k
    · subst hk
      have : k' ≠ q := hne
      simp [dbLookup, this, ih]
    · by_cases hq : k' = q
      · subst hq
        simp [dbLookup, hk, ih]
      · simp [dbLookup, hk, hq, ih]

theorem dbLookup_filter_self {K V : Type} [DecidableEq K] (db : List (K × V)) (k : K) :
    dbLookup (db.filter (fun p => !decide (p.1 = k))) k = none := by
  induction db with
  | nil => rfl
  | cons a t ih =>
    obtain ⟨k', v'⟩ := a
    by_cases hk : k' = k
    · subst hk; simp [ih]
    · simp [dbLookup, hk, ih]

theorem dbLookup_applyCBOp_ne (db : CDB) (op : CBOp) (q : CKey) (h : op.key ≠ q) :
    dbLookup (applyCBOp db op) q = dbLookup db q := by
  cases op with
  | write k v =>
    simp only [CBOp.key] at h
    simp only [applyCBOp, dbLookup, if_neg h]
    exact dbLookup_filter_ne db k q h
  | erase k =>
    simp only [CBOp.key] at h
    exact dbLookup_filter_ne db k q h

theorem dbLookup_applyCBatch_ne (ops : List CBOp) (q : CKey)
    (h : ∀ op ∈ ops, op.key ≠ q) :
    ∀ db : CDB, dbLookup (applyCBatch db ops) q = dbLookup db q := by
  induction ops with
  | nil => intro db; rfl
  | cons op t ih =>
    intro db
    have step : applyCBatch db (op :: t) = applyCBatch (applyCBOp db op) t := rfl
    rw [step, ih (fun o ho => h o (List.mem_cons_of_mem _ ho)),
      dbLookup_applyCBOp_ne db op q (h op (List.mem_cons_self _ _))]

theorem applyCBatch_append (o1 o2 : List CBOp) (db : CDB) :
    applyCBatch db (o1 ++ o2) = applyCBatch (applyCBatch db o1) o2 := by
  simp [applyCBatch, List.foldl_append]

theorem coinsLoopOps_append (m1 m2 : CCoinsMap) :
    coinsLoopOps (m1 ++ m2) = coinsLoopOps m1 ++ coinsLoopOps m2 := by
  induction m1 with
  | nil => rfl
  | cons a t ih =>
    obtain ⟨txid, e⟩ := a
    simp [coinsLoopOps, ih]

theorem coinsLoopOps_key {m : CCoinsMap} {op : CBOp} (h : op ∈ coinsLoopOps m) :
    ∃ txid, txid ∈ m.map Prod.fst ∧ op.key = CKey.coin txid := by
  induction m with
  | nil => simp [coinsLoopOps] at h
  | cons a t ih =>
    obtain ⟨txid, e⟩ := a
    rw [coinsLoopOps] at h
    rcases List.mem_append.mp h with h' | h'
    · refine ⟨txid, by simp, ?_⟩
      rcases hd : e.dirty with _ | _ <;> rw [hd] at h' <;>
        rcases hp : e.coins.IsPruned with _ | _ <;> rw [hp] at h' <;>
        simp at h' <;> simp [h', CBOp.key]
    · obtain ⟨t', ht', hk⟩ := ih h'
      exact ⟨t', by simp [ht'], hk⟩

theorem anchorsLoopOps_key {m : CAnchorsMap} {op : CBOp} (h : op ∈ anchorsLoopOps m) :
    ∃ rt, op.key = CKey.anchor rt := by
  induction m with
  | nil => simp [anchorsLoopOps] at h
  | cons a t ih =>
    obtain ⟨rt, e⟩ := a
    rw [anchorsLoopOps] at h
    rcases List.mem_append.mp h with h' | h'
    · refine ⟨rt, ?_⟩
      rcases hd : e.dirty with _ | _ <;> rw [hd] at h' <;>
        rcases he : e.entered with _ | _ <;> rw [he] at h' <;>
        simp at h' <;> simp [h', CBOp.key]
    · exact ih h'

theorem nullifiersLoopOps_key {m : CNullifiersMap} {op : CBOp}
    (h : op ∈ nullifiersLoopOps m) : ∃ nf, op.key = CKey.nullifier nf := by
  induction m with
  | nil => simp [nullifiersLoopOps] at h
  | cons a t ih =>
    obtain ⟨nf, e⟩ := a
    rw [nullifiersLoopOps] at h
    rcases List.mem_append.mp h with h' | h'
    · refine ⟨nf, ?_⟩
      rcases hd : e.dirty with _ | _ <;> rw [hd] at h' <;>
        rcases he : e.entered with _ | _ <;> rw [he] at h' <;>
        simp at h' <;> simp [h', CBOp.key]
    · exact ih h'

theorem bestPointerOps_key {hb ha : Nat} {op : CBOp} (h : op ∈ bestPointerOps hb ha) :
    op.key = CKey.bestBlock ∨ op.key = CKey.bestAnchor := by
  rw [bestPointerOps] at h
  rcases List.mem_append.mp h with h' | h' <;> split at h' <;> simp at h' <;>
    simp [h', CBOp.key]

theorem coinsLoopOps_eq_filterMap (m : CCoinsMap) :
    coinsLoopOps m = m.filterMap coinEntryOpSpec := by
  induction m with
  | nil => rfl
  | cons a t ih =>
    obtain ⟨txid, e⟩ := a
    rcases hd : e.dirty with _ | _ <;> rcases hp : e.coins.IsPruned with _ | _ <;>
      simp [coinsLoopOps, coinEntryOpSpec, hd, hp, ih, List.filterMap_cons]

theorem anchorsLoopOps_eq_filterMap (m : CAnchorsMap) :
    anchorsLoopOps m = m.filterMap anchorEntryOpSpec := by
  induction m with
  | nil => rfl
  | cons a t ih =>
    obtain ⟨rt, e⟩ := a
    rcases hd : e.dirty with _ | _ <;> rcases he : e.entered with _ | _ <;>
      simp [anchorsLoopOps, anchorEntryOpSpec, hd, he, ih, List.filterMap_cons]

theorem nullifiersLoopOps_eq_filterMap (m : CNullifiersMap) :
    nullifiersLoopOps m = m.filterMap nullifierEntryOpSpec := by
  induction m with
  | nil => rfl
  | cons a t ih =>
    obtain ⟨nf, e⟩ := a
    rcases hd : e.dirty with _ | _ <;> rcases he : e.entered with _ | _ <;>
      simp [nullifiersLoopOps, nullifierEntryOpSpec, hd, he, ih, List.filterMap_cons]

/-! ## Claims about point operations and the coin-set batch -/

/-- C1: the batch committed by the coin-set apply operation
(CCoinsViewDB::BatchWrite) consists exactly of: a delete for each dirty and
pruned coin entry, an upsert for each dirty and unpruned coin entry, a delete
for each dirty not-entered anchor/nullifier entry, an upsert for each dirty
entered one, and no operation for clean entries (followed by the best-pointer
writes for non-null hashes); and after applying an overlay whose coin entry
for a txid is dirty and pruned, a subsequent GetCoins/HaveCoins for that txid
returns absent. -/
theorem claim_C1_batchWrite (db : CDB) (mc : CCoinsMap) (hb ha : Nat)
    (ma : CAnchorsMap) (mn : CNullifiersMap) (txid : Nat) (e : CCoinsCacheEntry)
    (hmem : (txid, e) ∈ mc) (hnd : (mc.map Prod.fst).Nodup)
    (hdirty : e.dirty = true) (hpruned : e.coins.IsPruned = true) :
    (BatchWriteCommit mc hb ha ma mn).ops =
        mc.filterMap coinEntryOpSpec ++ ma.filterMap anchorEntryOpSpec ++
          mn.filterMap nullifierEntryOpSpec ++ bestPointerOps hb ha
    ∧ CCoinsViewDB.GetCoins (CCoinsViewDB.BatchWrite db mc hb ha ma mn) txid = none
    ∧ CCoinsViewDB.HaveCoins (CCoinsViewDB.BatchWrite db mc hb ha ma mn) txid
        = false := by
  obtain ⟨l1, l2, hmc⟩ := List.append_of_mem hmem
  subst hmc
  have hnd' := hnd
  rw [List.map_append, List.map_cons, List.nodup_append] at hnd'
  obtain ⟨hnd1, hnd2, hdisj⟩ := hnd'
  have hl1 : txid ∉ l1.map Prod.fst := fun hmem1 => hdisj hmem1 (List.mem_cons_self _ _)
  have hl2 : txid ∉ l2.map Prod.fst := (List.nodup_cons.mp hnd2).1
  have hcoins : coinsLoopOps (l1 ++ (txid, e) :: l2) =
      coinsLoopOps l1 ++ CBOp.erase (CKey.coin txid) :: coinsLoopOps l2 := by
    rw [coinsLoopOps_append, coinsLoopOps]
    simp [hdirty, hpruned]
  have hmain : dbLookup
      (CCoinsViewDB.BatchWrite db (l1 ++ (txid, e) :: l2) hb ha ma mn)
      (CKey.coin txid) = none := by
    rw [CCoinsViewDB.BatchWrite]
    have hops : (BatchWriteCommit (l1 ++ (txid, e) :: l2) hb ha ma mn).ops =
        coinsLoopOps l1 ++ (CBOp.erase (CKey.coin txid) ::
          (coinsLoopOps l2 ++ (anchorsLoopOps ma ++
            (nullifiersLoopOps mn ++ bestPointerOps hb ha)))) := by
      rw [BatchWriteCommit]
      simp [hcoins]
    rw [hops, applyCBatch_append]
    have hstep : applyCBatch (applyCBatch db (coinsLoopOps l1))
        (CBOp.erase (CKey.coin txid) ::
          (coinsLoopOps l2 ++ (anchorsLoopOps ma ++
            (nullifiersLoopOps mn ++ bestPointerOps hb ha)))) =
        applyCBatch
          (applyCBOp (applyCBatch db (coinsLoopOps l1)) (CBOp.erase (CKey.coin txid)))
          (coinsLoopOps l2 ++ (anchorsLoopOps ma ++
            (nullifiersLoopOps mn ++ bestPointerOps hb ha))) := rfl
    rw [hstep]
    have hrest : ∀ op ∈ coinsLoopOps l2 ++ (anchorsLoopOps ma ++
        (nullifiersLoopOps mn ++ bestPointerOps hb ha)),
        op.key ≠ CKey.coin txid := by
      intro op hop
      rcases List.mem_append.mp hop with h' | h'
      · obtain ⟨t', ht', hk⟩ := coinsLoopOps_key h'
        rw [hk]
        intro hcontra
        apply hl2
        have : t' = txid := by injection hcontra
        rw [← this]; exact ht'
      · rcases List.mem_append.mp h' with h'' | h''
        · obtain ⟨rt, hk⟩ := anchorsLoopOps_key h''
          rw [hk]; intro hcontra; cases hcontra
        · rcases List.mem_append.mp h'' with h3 | h3
          · obtain ⟨nf, hk⟩ := nullifiersLoopOps_key h3
            rw [hk]; intro hcontra; cases hcontra
          · rcases bestPointerOps_key h3 with hk | hk <;>
              (rw [hk]; intro hcontra; cases hcontra)
    rw [dbLookup_applyCBatch_ne _ _ hrest]
    exact dbLookup_filter_self _ _
  refine ⟨?_, ?_, ?_⟩
  · rw [BatchWriteCommit]
    simp [coinsLoopOps_eq_filterMap, anchorsLoopOps_eq_filterMap,
      nullifiersLoopOps_eq_filterMap]
  · rw [CCoinsViewDB.GetCoins, hmain]
  · rw [CCoinsViewDB.HaveCoins, hmain]; rfl

/-- Witness for C1 at a concrete store and overlay: the pruned+dirty entry
for txid 5 removes the persisted coin record. -/
theorem claim_C1_batchWrite_witness :
    (BatchWriteCommit [(5, ⟨⟨[]⟩, true⟩)] 0 0 [] []).ops =
        ([(5, ⟨⟨[]⟩, true⟩)] : CCoinsMap).filterMap coinEntryOpSpec ++
          ([] : CAnchorsMap).filterMap anchorEntryOpSpec ++
          ([] : CNullifiersMap).filterMap nullifierEntryOpSpec ++ bestPointerOps 0 0
    ∧ CCoinsViewDB.GetCoins
        (CCoinsViewDB.BatchWrite [(CKey.coin 5, CVal.coins ⟨[⟨7, [1]⟩]⟩)]
          [(5, ⟨⟨[]⟩, true⟩)] 0 0 [] []) 5 = none
    ∧ CCoinsViewDB.HaveCoins
        (CCoinsViewDB.BatchWrite [(CKey.coin 5, CVal.coins ⟨[⟨7, [1]⟩]⟩)]
          [(5, ⟨⟨[]⟩, true⟩)] 0 0 [] []) 5 = false :=
  claim_C1_batchWrite [(CKey.coin 5, CVal.coins ⟨[⟨7, [1]⟩]⟩)]
    [(5, ⟨⟨[]⟩, true⟩)] 0 0 [] [] 5 ⟨⟨[]⟩, true⟩
    (by decide) (by decide) (by decide) (by decide)

/-- C3: GetAnchorAt returns the synthesized empty tree at the canonical
empty-tree root on every store — including a freshly created one — without
consulting the store; for any other root it is the point lookup, and a miss
is reported as not-found, not as an error. -/
theorem claim_C3_getAnchorAt (db : CDB) (rt : Nat)
    (hrt : rt ≠ ZCIncrementalMerkleTree.empty_root) :
    CCoinsViewDB.GetAnchorAt db ZCIncrementalMerkleTree.empty_root =
        some ZCIncrementalMerkleTree.emptyTree
    ∧ CCoinsViewDB.GetAnchorAt ([] : CDB) ZCIncrementalMerkleTree.empty_root =
        some ZCIncrementalMerkleTree.emptyTree
    ∧ CCoinsViewDB.GetAnchorAt db rt = CCoinsViewDB.readAnchor db rt
    ∧ (dbLookup db (CKey.anchor rt) = none →
        CCoinsViewDB.GetAnchorAt db rt = none) := by
  refine ⟨by simp [CCoinsViewDB.GetAnchorAt], by simp [CCoinsViewDB.GetAnchorAt],
    by simp [CCoinsViewDB.GetAnchorAt, hrt], ?_⟩
  intro hmiss
  simp [CCoinsViewDB.GetAnchorAt, hrt, CCoinsViewDB.readAnchor, hmiss]

/-- Witness for C3 at root 2 on a store whose record under the empty-root
anchor key is junk (showing the store is not consulted there) and which
misses root 2. -/
theorem claim_C3_getAnchorAt_witness :
    CCoinsViewDB.GetAnchorAt
        [(CKey.anchor ZCIncrementalMerkleTree.empty_root, CVal.corrupt)]
        ZCIncrementalMerkleTree.empty_root = some ZCIncrementalMerkleTree.emptyTree
    ∧ CCoinsViewDB.GetAnchorAt ([] : CDB) ZCIncrementalMerkleTree.empty_root =
        some ZCIncrementalMerkleTree.emptyTree
    ∧ CCoinsViewDB.GetAnchorAt
        [(CKey.anchor ZCIncrementalMerkleTree.empty_root, CVal.corrupt)] 2 =
        CCoinsViewDB.readAnchor
          [(CKey.anchor ZCIncrementalMerkleTree.empty_root, CVal.corrupt)] 2
    ∧ (dbLookup [(CKey.anchor ZCIncrementalMerkleTree.empty_root, CVal.corrupt)]
          (CKey.anchor 2) = none →
        CCoinsViewDB.GetAnchorAt
          [(CKey.anchor ZCIncrementalMerkleTree.empty_root, CVal.corrupt)] 2 = none) :=
  claim_C3_getAnchorAt
    [(CKey.anchor ZCIncrementalMerkleTree.empty_root, CVal.corrupt)] 2 (by decide)

/-- C9: GetNullifier returns true iff a record exists at the nullifier key
and decodes, regardless of the decoded boolean payload: a persisted record
storing `false` is still reported spent, and absence yields false. -/
theorem claim_C9_getNullifier (db : CDB) (nf : Nat) :
    (CCoinsViewDB.GetNullifier db nf = true ↔
      ∃ b, dbLookup db (CKey.nullifier nf) = some (CVal.boolVal b))
    ∧ CCoinsViewDB.GetNullifier [(CKey.nullifier nf, CVal.boolVal false)] nf = true
    ∧ CCoinsViewDB.GetNullifier ([] : CDB) nf = false := by
  refine ⟨?_, ?_, rfl⟩
  · unfold CCoinsViewDB.GetNullifier CCoinsViewDB.readNullifier
    cases h : dbLookup db (CKey.nullifier nf) with
    | none => simp
    | some v => cases v <;> simp
  · simp [CCoinsViewDB.GetNullifier, CCoinsViewDB.readNullifier, dbLookup]

/-- C10: GetStats resolves the height through an unguarded lookup of the
best-block hash in the in-memory block-index map; under the precondition that
this hash is a key of the map, that failure branch is unreachable. -/
theorem claim_C10_getStats_mapBlockIndex (db : CDB) (mapBlockIndex : Nat → Option Int)
    (vsize : CCoins → Nat)
    (hpre : (mapBlockIndex (CCoinsViewDB.GetBestBlock db)).isSome = true) :
    CCoinsViewDB.GetStats db mapBlockIndex vsize ≠
      Except.error GetStatsFailure.mapBlockIndexMiss := by
  obtain ⟨h, hh⟩ := Option.isSome_iff_exists.mp hpre
  unfold CCoinsViewDB.GetStats
  cases hscan : statsScan vsize (seekL encC [99] db) with
  | error e => simp [hscan]
  | ok acc => simp [hscan, hh]

/-- Witness for C10 on a fresh store (null best-block hash) whose map knows
the null hash. -/
theorem claim_C10_getStats_mapBlockIndex_witness :
    CCoinsViewDB.GetStats ([] : CDB) (fun _ => some 0) (fun _ => 0) ≠
      Except.error GetStatsFailure.mapBlockIndexMiss :=
  claim_C10_getStats_mapBlockIndex [] (fun _ => some 0) (fun _ => 0) (by decide)

/-- C8: write_block_files_and_index and erase_block_index commit their batch
with forced durability, while the coin-set apply batch and all
secondary-index batched writers commit without it. -/
theorem claim_C8_durability (fi : List (Nat × CBlockFileInfo)) (nLastFile : Nat)
    (bi bi2 : List CDiskBlockIndex) (tx : List (Nat × CDiskTxPos))
    (sp : List (CSpentIndexKey × CSpentIndexValue))
    (au : List (CAddressUnspentKey × CAddressUnspentValue))
    (ai ai2 : List (CAddressIndexKey × Int)) (ts bh : Nat)
    (mc : CCoinsMap) (hb ha : Nat) (ma : CAnchorsMap) (mn : CNullifiersMap) :
    (CBlockTreeDB.WriteBatchSync fi nLastFile bi).sync = true
    ∧ (CBlockTreeDB.EraseBatchSync bi2).sync = true
    ∧ (BatchWriteCommit mc hb ha ma mn).sync = false
    ∧ (CBlockTreeDB.WriteTxIndex tx).sync = false
    ∧ (CBlockTreeDB.UpdateSpentIndex sp).sync = false
    ∧ (CBlockTreeDB.UpdateAddressUnspentIndex au).sync = false
    ∧ (CBlockTreeDB.WriteAddressIndex ai).sync = false
    ∧ (CBlockTreeDB.EraseAddressIndex ai2).sync = false
    ∧ (CBlockTreeDB.WriteTimestampIndex ts bh).sync = false :=
  ⟨rfl, rfl, rfl, rfl, rfl, rfl, rfl, rfl, rfl⟩

/-! ## Range-reader claims -/

theorem lexLt_cons_same (a : Nat) (as bs : List Nat) :
    lexLt (a :: as) (a :: bs) = lexLt as bs := by
  rw [lexLt_cons]; simp

theorem lexLt_single_right {a b : Nat} {as : List Nat}
    (h : lexLt (a :: as) [b] = true) : a < b := by
  rw [lexLt_cons] at h
  split_ifs at h with h1 h2
  · exact h1
  · rw [lexLt_nil_right] at h; cases h

/-- The timestamp loop is an instance of the generic scan (it never errors:
the value is not read). -/
theorem tsScan_eq_scanG (high : Nat) (l : List (BKey × BVal)) :
    scanG (tsContinue high) tsExtract "ts" l = .ok (CBlockTreeDB.tsScan high l) := by
  induction l with
  | nil => rfl
  | cons a t ih =>
    obtain ⟨k, v⟩ := a
    cases k
    case timestampIndex ts h =>
      by_cases hts : ts ≤ high <;>
        simp [scanG, tsContinue, tsExtract, CBlockTreeDB.tsScan, hts, ih, exceptMap_ok]
    all_goals rfl

/-- C5: read_timestamp_index (CBlockTreeDB::ReadTimestampIndex) returns
exactly the block hashes of timestamp-index records whose timestamp t
satisfies low ≤ t ≤ high: it seeks to the low bound and stops, without
error, once a record's timestamp exceeds the high bound or the discriminator
no longer matches. -/
theorem claim_C5_readTimestampIndex (db : BDB) (high low : Nat)
    (hs : StSorted encB db) :
    CBlockTreeDB.ReadTimestampIndex db high low =
      db.filterMap (fun kv =>
        if tsInWindow low high kv.1 then tsExtract kv.1 kv.2 else none) := by
  have hmain := scanG_seek encB (tsContinue high) tsExtract "ts"
    (tsInWindow low high) [83, low] db hs ?h1 ?h2 ?h3 ?h4
  case h1 =>
    intro kv hmem hlt
    obtain ⟨k, v⟩ := kv
    cases k
    case timestampIndex ta ha =>
      simp only [encB, lexLt_cons_same] at hlt
      have hta : ta < low := lexLt_single_right hlt
      have hno : ¬ low ≤ ta := by omega
      simp [tsInWindow, hno]
    all_goals rfl
  case h2 =>
    intro kv hmem hge
    obtain ⟨k, v⟩ := kv
    cases k
    case timestampIndex ta ha =>
      simp only [encB, lexLt_cons_same] at hge
      have hlow : low ≤ ta := not_lexLt_head hge
      simp only [tsContinue, tsInWindow, decide_eq_true hlow, Bool.true_and]
    all_goals rfl
  case h3 =>
    intro kv kv2 hm1 hm2 hge1 hp1 hlt
    obtain ⟨k1, v1⟩ := kv
    obtain ⟨k2, v2⟩ := kv2
    cases k2
    case timestampIndex tb hb =>
      simp only [tsContinue, decide_eq_false_iff_not]
      cases k1
      case timestampIndex ta ha =>
        simp only [tsContinue, decide_eq_false_iff_not] at hp1
        simp only [encB, lexLt_cons_same] at hlt
        have hab : ta ≤ tb := lexLt_head hlt
        omega
      all_goals
        (simp only [encB] at hlt hge1
         have hle := lexLt_head hlt
         have hge := not_lexLt_head hge1
         omega)
    all_goals rfl
  case h4 =>
    intro kv hmem hfull
    obtain ⟨k, v⟩ := kv
    cases k <;> simp [tsInWindow, tsExtract] at hfull ⊢
  have hbr := tsScan_eq_scanG high (seekL encB [83, low] db)
  rw [hmain] at hbr
  have hinj := hbr.symm
  rw [Except.ok.injEq] at hinj
  rw [CBlockTreeDB.ReadTimestampIndex, hinj]

/-- Witness for C5 on a concrete sorted store: timestamps 5, 7, 9 and a
later block-index record; the window [6, 8] selects exactly hash 41. -/
theorem claim_C5_readTimestampIndex_witness :
    CBlockTreeDB.ReadTimestampIndex
        [(BKey.timestampIndex 5 40, BVal.nullVal),
         (BKey.timestampIndex 7 41, BVal.nullVal),
         (BKey.timestampIndex 9 42, BVal.nullVal),
         (BKey.blockIndex 3, BVal.corrupt)] 8 6 =
      ([(BKey.timestampIndex 5 40, BVal.nullVal),
        (BKey.timestampIndex 7 41, BVal.nullVal),
        (BKey.timestampIndex 9 42, BVal.nullVal),
        (BKey.blockIndex 3, BVal.corrupt)] : BDB).filterMap (fun kv =>
          if tsInWindow 6 8 kv.1 then tsExtract kv.1 kv.2 else none) :=
  claim_C5_readTimestampIndex _ 8 6 (by decide)

theorem lexLt_cons_true_iff {a b : Nat} {as bs : List Nat} :
    lexLt (a :: as) (b :: bs) = true ↔ a < b ∨ (a = b ∧ lexLt as bs = true) := by
  rw [lexLt_cons]
  split_ifs with h1 h2
  · simp [h1]
  · simp [h1, h2]
  · simp [h1, h2]

theorem lexLt_cons_false_iff {a b : Nat} {as bs : List Nat} :
    lexLt (a :: as) (b :: bs) = false ↔ b < a ∨ (a = b ∧ lexLt as bs = false) := by
  rw [lexLt_cons]
  split_ifs with h1 h2
  · have hba : ¬ b < a := by omega
    have hne : a ≠ b := by omega
    simp [hba, hne]
  · have hba : ¬ b < a := by omega
    simp [h2, hba]
  · have hba : b < a := by omega
    simp [hba]

/-- The address-unspent loop is an instance of the generic scan. -/
theorem auScan_eq_scanG (addressHash : Nat) (l : List (BKey × BVal)) :
    CBlockTreeDB.auScan addressHash l =
      scanG (auContinue addressHash) auExtract
        "failed to get address unspent value" l := by
  induction l with
  | nil => rfl
  | cons a t ih =>
    obtain ⟨k, v⟩ := a
    cases k
    case addressUnspent ak =>
      by_cases hh : ak.hashBytes = addressHash
      · cases v <;>
          simp [CBlockTreeDB.auScan, scanG, auContinue, auExtract, hh, ih, exceptMap_ok]
      · simp [CBlockTreeDB.auScan, scanG, auContinue, auExtract, hh]
    all_goals rfl

/-- Counterexample to C6 as stated: the continue-condition of
ReadAddressUnspentIndex does not include the index type, so on a store whose
only record has index type 2 for address 1000, querying type 1 still returns
that record — the result is not restricted to entries matching both the
given type and address. -/
theorem claim_C6_counterexample :
    CBlockTreeDB.ReadAddressUnspentIndex
        [(BKey.addressUnspent ⟨2, 1000, 55, 0⟩, BVal.unspentVal ⟨9, [1], 3⟩)] 1000 1 =
      .ok [(⟨2, 1000, 55, 0⟩, ⟨9, [1], 3⟩)]
    ∧ (2 : Nat) ≠ 1 :=
  ⟨rfl, by decide⟩

/-- The numerical core of the contiguity argument for the address-unspent
scan: once the continue-condition failed at or after the seek target, no
later key of a type-uniform store can satisfy it again. -/
theorem au_h3_core {t A ty1 hb1 tx1 i1 ty2 hb2 tx2 i2 : Nat}
    (hge1 : lexLt [ty1, hb1, tx1, i1] [t, A] = false)
    (hlt : lexLt [ty1, hb1, tx1, i1] [ty2, hb2, tx2, i2] = true)
    (hp1 : ¬ hb1 = A) (ht2 : ty2 = t) : ¬ hb2 = A := by
  intro hb2A
  subst ht2 hb2A
  rw [lexLt_cons_false_iff] at hge1
  rw [lexLt_cons_true_iff] at hlt
  rcases hge1 with h | ⟨he, hge1'⟩
  · rcases hlt with h' | ⟨he', _⟩ <;> omega
  · rw [lexLt_cons_false_iff] at hge1'
    rcases hge1' with hA | ⟨hbA, _⟩
    · rcases hlt with h' | ⟨he', hlt'⟩
      · omega
      · rw [lexLt_cons_true_iff] at hlt'
        rcases hlt' with h'' | ⟨he'', _⟩ <;> omega
    · exact hp1 hbA

/-- C6 (amended): the continue-condition of read_address_unspent_index
(CBlockTreeDB::ReadAddressUnspentIndex) checks only the discriminator and
the address hash — the index type enters only the seek lower bound and is
not re-checked.  On a store in which every address-unspent record carrying
the given address hash has the given index type (and those records decode),
the reader returns exactly the stored entries for that type and address,
ending the scan successfully at the first key outside that set. -/
theorem claim_C6_readAddressUnspentIndex (db : BDB) (addressHash type : Nat)
    (hs : StSorted encB db)
    (htype : ∀ kv ∈ db, auTypeUniform type addressHash kv.1 = true)
    (hdec : ∀ kv ∈ db, auMatches type addressHash kv.1 = true →
      (auExtract kv.1 kv.2).isSome = true) :
    CBlockTreeDB.ReadAddressUnspentIndex db addressHash type =
      .ok (db.filterMap (fun kv =>
        if auMatches type addressHash kv.1 then auExtract kv.1 kv.2 else none)) := by
  have htypeP : ∀ kv ∈ db, ∀ a : CAddressUnspentKey, kv.1 = BKey.addressUnspent a →
      a.hashBytes = addressHash → a.type = type := by
    intro kv hm a hk hh
    have := htype kv hm
    rw [hk] at this
    simp [auTypeUniform, hh] at this
    exact this
  have hmain := scanG_seek encB (auContinue addressHash) auExtract
    "failed to get address unspent value" (auMatches type addressHash)
    [117, type, addressHash] db hs ?h1 ?h2 ?h3 hdec
  case h1 =>
    intro kv hm hlt
    obtain ⟨k, v⟩ := kv
    cases k
    case addressUnspent a =>
      simp only [encB, lexLt_cons_same] at hlt
      by_cases het : a.type = type
      · rw [het, lexLt_cons_same] at hlt
        have hb := lexLt_single_right hlt
        have hne : ¬ a.hashBytes = addressHash := by omega
        simp [auMatches, hne]
      · simp [auMatches, het]
    all_goals rfl
  case h2 =>
    intro kv hm hge
    obtain ⟨k, v⟩ := kv
    cases k
    case addressUnspent a =>
      by_cases hh : a.hashBytes = addressHash
      · have ht := htypeP (BKey.addressUnspent a, v) hm a rfl hh
        simp [auContinue, auMatches, hh, ht]
      · simp [auContinue, auMatches, hh]
    all_goals rfl
  case h3 =>
    intro kv kv2 hm1 hm2 hge1 hp1 hlt
    obtain ⟨k1, v1⟩ := kv
    obtain ⟨k2, v2⟩ := kv2
    cases k2
    case addressUnspent a2 =>
      cases k1
      case addressUnspent a1 =>
        by_cases hA2 : a2.hashBytes = addressHash
        · have ht2 := htypeP (BKey.addressUnspent a2, v2) hm2 a2 rfl hA2
          simp only [auContinue, beq_eq_false_iff_ne, ne_eq] at hp1
          simp only [encB, lexLt_cons_same] at hge1 hlt
          exact absurd hA2 (au_h3_core hge1 hlt hp1 ht2)
        · simp [auContinue, hA2]
      all_goals
        (simp only [encB] at hge1
         have := not_lexLt_head hge1
         omega)
    all_goals rfl
  rw [CBlockTreeDB.ReadAddressUnspentIndex, auScan_eq_scanG, hmain]

/-- Witness for C6 (amended) on a concrete sorted, type-uniform store:
querying type 1, address 1000 returns its two records and stops at the
record of another address. -/
theorem claim_C6_readAddressUnspentIndex_witness :
    CBlockTreeDB.ReadAddressUnspentIndex
        [(BKey.addressUnspent ⟨1, 1000, 50, 0⟩, BVal.unspentVal ⟨9, [1], 3⟩),
         (BKey.addressUnspent ⟨1, 1000, 60, 1⟩, BVal.unspentVal ⟨4, [2], 7⟩),
         (BKey.addressUnspent ⟨1, 2000, 10, 0⟩, BVal.unspentVal ⟨5, [3], 2⟩)] 1000 1 =
      .ok (([(BKey.addressUnspent ⟨1, 1000, 50, 0⟩, BVal.unspentVal ⟨9, [1], 3⟩),
         (BKey.addressUnspent ⟨1, 1000, 60, 1⟩, BVal.unspentVal ⟨4, [2], 7⟩),
         (BKey.addressUnspent ⟨1, 2000, 10, 0⟩, BVal.unspentVal ⟨5, [3], 2⟩)] : BDB).filterMap
        (fun kv => if auMatches 1 1000 kv.1 then auExtract kv.1 kv.2 else none)) :=
  claim_C6_readAddressUnspentIndex _ 1000 1 (by decide) (by decide) (by decide)

/-- Decomposition of the lexicographic order on (height, txid, index)
triples. -/
theorem lexLt_triple {b1 t1 i1 b2 t2 i2 : Nat}
    (h : lexLt [b1, t1, i1] [b2, t2, i2] = true) :
    b1 < b2 ∨ (b1 = b2 ∧ (t1 < t2 ∨ (t1 = t2 ∧ i1 < i2))) := by
  rw [lexLt_cons_true_iff] at h
  rcases h with h | ⟨hb, h⟩
  · exact Or.inl h
  · rw [lexLt_cons_true_iff] at h
    rcases h with h | ⟨ht, h⟩
    · exact Or.inr ⟨hb, Or.inl h⟩
    · exact Or.inr ⟨hb, Or.inr ⟨ht, lexLt_single_right h⟩⟩

/-- A filterMap of a pairwise-related list is pairwise related when the
extraction transports the relation. -/
theorem pairwise_filterMap_of {α β : Type} {R : α → α → Prop} {S : β → β → Prop}
    (f : α → Option β) {l : List α} (hl : l.Pairwise R)
    (h : ∀ a b, R a b → ∀ x, f a = some x → ∀ y, f b = some y → S x y) :
    (l.filterMap f).Pairwise S := by
  induction l with
  | nil => simp
  | cons a t ih
  => obtain ⟨hrel, ht⟩ := List.pairwise_cons.mp hl
     rw [List.filterMap_cons]
     cases hfa : f a with
     | none => exact ih ht
     | some x =>
       rw [List.pairwise_cons]
       refine ⟨?_, ih ht⟩
       intro y hy
       obtain ⟨b, hb, hfb⟩ := List.mem_filterMap.mp hy
       exact h a b (hrel b hb) x hfa y hfb

/-- The address-index loop is an instance of the generic scan. -/
theorem aiScan_eq_scanG (addressHash endHeight : Nat) (l : List (BKey × BVal)) :
    CBlockTreeDB.aiScan addressHash endHeight l =
      scanG (aiContinue addressHash endHeight) aiExtract
        "failed to get address index value" l := by
  induction l with
  | nil => rfl
  | cons a t ih =>
    obtain ⟨k, v⟩ := a
    cases k
    case addressIndex ak =>
      by_cases hh : ak.hashBytes = addressHash
      · by_cases he : 0 < endHeight
        · by_cases hcut : endHeight < ak.blockHeight
          · simp [CBlockTreeDB.aiScan, scanG, aiContinue, hh, he, hcut]
          · cases v <;>
              simp [CBlockTreeDB.aiScan, scanG, aiContinue, aiExtract, hh, he,
                hcut, ih, exceptMap_ok]
        · cases v <;>
            simp [CBlockTreeDB.aiScan, scanG, aiContinue, aiExtract, hh, he,
              ih, exceptMap_ok]
      · simp [CBlockTreeDB.aiScan, scanG, aiContinue, hh]
    all_goals rfl

/-- Counterexample to C4 as stated: the continue-condition of
ReadAddressIndex does not include the index type, so on a store whose only
record has index type 2 for address 1000 at height 5, querying type 1 with
bounds 1..10 still returns that record — the result is not restricted to
records of the requested type. -/
theorem claim_C4_counterexample :
    CBlockTreeDB.ReadAddressIndex
        [(BKey.addressIndex ⟨2, 1000, 5, 55, 0⟩, BVal.amount 9)] 1000 1 1 10 =
      .ok [(⟨2, 1000, 5, 55, 0⟩, 9)]
    ∧ (2 : Nat) ≠ 1 :=
  ⟨rfl, by decide⟩

/-- The numerical core of the contiguity argument for the address-index
scan: once the continue-condition failed at or after the seek target, every
later record of a type-uniform store carrying the scanned address has a
height beyond the end bound. -/
theorem ai_h3_core {t A s e ty1 hb1 bh1 tx1 i1 ty2 hb2 bh2 tx2 i2 : Nat}
    (hge1 : lexLt [ty1, hb1, bh1, tx1, i1] [t, A, s] = false)
    (hlt : lexLt [ty1, hb1, bh1, tx1, i1] [ty2, hb2, bh2, tx2, i2] = true)
    (hty1 : hb1 = A → ty1 = t)
    (hp1 : ¬ hb1 = A ∨ (0 < e ∧ e < bh1))
    (ht2 : ty2 = t) (hb2A : hb2 = A) : e < bh2 := by
  by_cases hb1A : hb1 = A
  · have hty := hty1 hb1A
    rcases hp1 with h | ⟨he, hbh1⟩
    · exact absurd hb1A h
    · rw [hty, ht2, hb1A, hb2A, lexLt_cons_same, lexLt_cons_same] at hlt
      have := lexLt_head hlt
      omega
  · exfalso
    rw [ht2, hb2A] at hlt
    rw [lexLt_cons_false_iff] at hge1
    rw [lexLt_cons_true_iff] at hlt
    rcases hge1 with hg | ⟨hgeq, hge1'⟩
    · rcases hlt with hl | ⟨hleq, _⟩ <;> omega
    · rw [lexLt_cons_false_iff] at hge1'
      rcases hge1' with hgA | ⟨hbA, _⟩
      · rcases hlt with hl | ⟨hleq, hlt'⟩
        · omega
        · rw [lexLt_cons_true_iff] at hlt'
          rcases hlt' with hl' | ⟨hleq', _⟩
          · omega
          · exact hb1A hleq'
      · exact hb1A hbA

/-- C4 (amended): the continue-condition of read_address_index
(CBlockTreeDB::ReadAddressIndex) checks only the discriminator and the
address hash — the index type enters only the seek lower bound and is not
re-checked.  With both bounds positive, on a store in which every
address-index record carrying the given address hash has the given index
type (and the in-window records decode), the reader returns exactly the
stored records for that address and type whose height h satisfies
startHeight ≤ h ≤ endHeight, in ascending height order with ties ordered by
ascending txid and output index. -/
theorem claim_C4_readAddressIndex (db : BDB)
    (addressHash type startHeight endHeight : Nat)
    (hs : StSorted encB db) (hstart : 0 < startHeight) (hend : 0 < endHeight)
    (htype : ∀ kv ∈ db, aiTypeUniform type addressHash kv.1 = true)
    (hdec : ∀ kv ∈ db,
      aiInWindow type addressHash startHeight endHeight kv.1 = true →
      (aiExtract kv.1 kv.2).isSome = true) :
    CBlockTreeDB.ReadAddressIndex db addressHash type startHeight endHeight =
      .ok (db.filterMap (fun kv =>
        if aiInWindow type addressHash startHeight endHeight kv.1 then
          aiExtract kv.1 kv.2 else none))
    ∧ ∀ res,
        CBlockTreeDB.ReadAddressIndex db addressHash type startHeight endHeight =
          .ok res → res.Pairwise aiAscending := by
  have htypeP : ∀ kv ∈ db, ∀ a : CAddressIndexKey, kv.1 = BKey.addressIndex a →
      a.hashBytes = addressHash → a.type = type := by
    intro kv hm a hk hh
    have := htype kv hm
    rw [hk] at this
    simp [aiTypeUniform, hh] at this
    exact this
  have hmain := scanG_seek encB (aiContinue addressHash endHeight) aiExtract
    "failed to get address index value"
    (aiInWindow type addressHash startHeight endHeight)
    [100, type, addressHash, startHeight] db hs ?h1 ?h2 ?h3 hdec
  case h1 =>
    intro kv hm hlt
    obtain ⟨k, v⟩ := kv
    cases k
    case addressIndex a =>
      simp only [encB, lexLt_cons_same] at hlt
      by_cases het : a.type = type
      · rw [het, lexLt_cons_same] at hlt
        by_cases hA : a.hashBytes = addressHash
        · rw [hA, lexLt_cons_same] at hlt
          have hbh := lexLt_single_right hlt
          have hns : ¬ startHeight ≤ a.blockHeight := by omega
          simp [aiInWindow, hns]
        · simp [aiInWindow, hA]
      · simp [aiInWindow, het]
    all_goals rfl
  case h2 =>
    intro kv hm hge
    obtain ⟨k, v⟩ := kv
    cases k
    case addressIndex a =>
      by_cases hA : a.hashBytes = addressHash
      · have ht := htypeP (BKey.addressIndex a, v) hm a rfl hA
        simp only [encB, lexLt_cons_same] at hge
        rw [ht, lexLt_cons_same, hA, lexLt_cons_same] at hge
        have hsle : startHeight ≤ a.blockHeight := not_lexLt_head hge
        rcases Nat.lt_or_ge endHeight a.blockHeight with hcmp | hcmp
        · have hnb : ¬ a.blockHeight ≤ endHeight := by omega
          simp [aiContinue, aiInWindow, hA, ht, hsle, hend, hcmp, hnb]
        · have hnc : ¬ endHeight < a.blockHeight := by omega
          have hble : a.blockHeight ≤ endHeight := by omega
          simp [aiContinue, aiInWindow, hA, ht, hsle, hend, hnc, hble]
      · have hbf : (a.hashBytes == addressHash) = false := by
          simp [hA]
        simp [aiContinue, aiInWindow, hbf]
    all_goals rfl
  case h3 =>
    intro kv kv2 hm1 hm2 hge1 hp1 hlt
    obtain ⟨k1, v1⟩ := kv
    obtain ⟨k2, v2⟩ := kv2
    cases k2
    case addressIndex a2 =>
      cases k1
      case addressIndex a1 =>
        by_cases hA2 : a2.hashBytes = addressHash
        · have ht2 := htypeP (BKey.addressIndex a2, v2) hm2 a2 rfl hA2
          have hty1 : a1.hashBytes = addressHash → a1.type = type :=
            fun h => htypeP (BKey.addressIndex a1, v1) hm1 a1 rfl h
          have hp1' : ¬ a1.hashBytes = addressHash ∨
              (0 < endHeight ∧ endHeight < a1.blockHeight) := by
            by_cases hA1 : a1.hashBytes = addressHash
            · right
              simp [aiContinue, hA1, hend] at hp1
              exact ⟨hend, hp1⟩
            · left; exact hA1
          simp only [encB, lexLt_cons_same] at hge1 hlt
          have hcore := ai_h3_core hge1 hlt hty1 hp1' ht2 hA2
          simp [aiContinue, hA2, hend, hcore]
        · simp [aiContinue, hA2]
      all_goals
        (simp only [encB] at hge1 hlt
         have hge := not_lexLt_head hge1
         have hle := lexLt_head hlt
         omega)
    all_goals rfl
  have hread : CBlockTreeDB.ReadAddressIndex db addressHash type startHeight
      endHeight = .ok (db.filterMap (fun kv =>
        if aiInWindow type addressHash startHeight endHeight kv.1 then
          aiExtract kv.1 kv.2 else none)) := by
    rw [CBlockTreeDB.ReadAddressIndex, if_pos ⟨hstart, hend⟩, aiScan_eq_scanG, hmain]
  refine ⟨hread, ?_⟩
  intro res hres
  rw [hread, Except.ok.injEq] at hres
  rw [← hres]
  apply pairwise_filterMap_of _ hs
  intro a b hR x hfx y hfy
  obtain ⟨k1, v1⟩ := a
  obtain ⟨k2, v2⟩ := b
  cases k1
  case addressIndex a1 =>
    cases k2
    case addressIndex a2 =>
      by_cases h1 : aiInWindow type addressHash startHeight endHeight
          (BKey.addressIndex a1) = true
      · by_cases h2 : aiInWindow type addressHash startHeight endHeight
            (BKey.addressIndex a2) = true
        · rw [if_pos h1] at hfx
          rw [if_pos h2] at hfy
          simp only [aiInWindow, Bool.and_eq_true, beq_iff_eq,
            decide_eq_true_eq] at h1 h2
          obtain ⟨⟨⟨ht1, hA1⟩, hs1⟩, he1⟩ := h1
          obtain ⟨⟨⟨ht2, hA2⟩, hs2⟩, he2⟩ := h2
          cases v1 <;> simp [aiExtract] at hfx
          cases v2 <;> simp [aiExtract] at hfy
          subst hfx
          subst hfy
          simp only [encB, lexLt_cons_same] at hR
          rw [ht1, ht2, lexLt_cons_same, hA1, hA2, lexLt_cons_same] at hR
          exact lexLt_triple hR
        · rw [if_neg h2] at hfy; cases hfy
      · rw [if_neg h1] at hfx; cases hfx
    all_goals (simp [aiInWindow] at hfy)
  all_goals (simp [aiInWindow] at hfx)

/-- Witness for C4 (amended) on a concrete sorted, type-uniform store:
querying type 1, address 1000, window 5..10 returns exactly the height-5
record. -/
theorem claim_C4_readAddressIndex_witness :
    CBlockTreeDB.ReadAddressIndex
        [(BKey.addressIndex ⟨1, 1000, 4, 50, 0⟩, BVal.amount 3),
         (BKey.addressIndex ⟨1, 1000, 5, 60, 1⟩, BVal.amount 4),
         (BKey.addressIndex ⟨1, 1000, 12, 70, 0⟩, BVal.amount 5),
         (BKey.addressIndex ⟨1, 2000, 5, 80, 0⟩, BVal.amount 6)] 1000 1 5 10 =
      .ok (([(BKey.addressIndex ⟨1, 1000, 4, 50, 0⟩, BVal.amount 3),
         (BKey.addressIndex ⟨1, 1000, 5, 60, 1⟩, BVal.amount 4),
         (BKey.addressIndex ⟨1, 1000, 12, 70, 0⟩, BVal.amount 5),
         (BKey.addressIndex ⟨1, 2000, 5, 80, 0⟩, BVal.amount 6)] : BDB).filterMap
        (fun kv => if aiInWindow 1 1000 5 10 kv.1 then aiExtract kv.1 kv.2 else none))
    ∧ ∀ res,
        CBlockTreeDB.ReadAddressIndex
          [(BKey.addressIndex ⟨1, 1000, 4, 50, 0⟩, BVal.amount 3),
           (BKey.addressIndex ⟨1, 1000, 5, 60, 1⟩, BVal.amount 4),
           (BKey.addressIndex ⟨1, 1000, 12, 70, 0⟩, BVal.amount 5),
           (BKey.addressIndex ⟨1, 2000, 5, 80, 0⟩, BVal.amount 6)] 1000 1 5 10 =
          .ok res → res.Pairwise aiAscending :=
  claim_C4_readAddressIndex _ 1000 1 5 10 (by decide) (by decide) (by decide)
    (by decide) (by decide)

/-! ## The audit scanner claim -/

/-- The audit-scan loop is the generic scan followed by folding the decoded
coin records into the accumulator. -/
theorem statsScan_eq_scanG (vsize : CCoins → Nat) (l : List (CKey × CVal)) :
    statsScan vsize l =
      (scanG coinContinue coinExtract
        "CCoinsViewDB::GetStats() : unable to read value" l).map (statsFold vsize) := by
  induction l with
  | nil => rfl
  | cons a t ih =>
    obtain ⟨k, v⟩ := a
    cases k
    case coin txid =>
      cases v
      case coins c =>
        rw [statsScan, ih]
        cases hsc : scanG coinContinue coinExtract
            "CCoinsViewDB::GetStats() : unable to read value" t <;>
          simp [scanG, coinContinue, coinExtract, hsc, statsFold, exceptMap_ok,
            exceptMap_error]
      all_goals rfl
    all_goals rfl

/-- If some coin record of the scanned suffix fails to decode, the audit
scan loop is the hard read error. -/
theorem statsScan_error (vsize : CCoins → Nat) :
    ∀ l : List (CKey × CVal),
      StSorted encC l →
      (∀ kv ∈ l, lexLt (encC kv.1) [99] = false) →
      (∃ kv ∈ l, coinContinue kv.1 = true ∧ coinExtract kv.1 kv.2 = none) →
      statsScan vsize l = .error "CCoinsViewDB::GetStats() : unable to read value" := by
  intro l
  induction l with
  | nil =>
    intro _ _ hex
    simp at hex
  | cons a t ih =>
    intro hsort hge hex
    obtain ⟨hrel, hs'⟩ := List.pairwise_cons.mp hsort
    obtain ⟨k, v⟩ := a
    cases k
    case coin txid =>
      cases v
      case coins c =>
        obtain ⟨kv, hkv, hcont, hnone⟩ := hex
        rcases List.mem_cons.mp hkv with heq | hkv'
        · rw [heq] at hnone
          simp [coinExtract] at hnone
        · have htail := ih hs' (fun kv' hkv' => hge kv' (List.mem_cons_of_mem _ hkv'))
            ⟨kv, hkv', hcont, hnone⟩
          simp [statsScan, htail, exceptMap_error]
      all_goals simp [statsScan]
    case nullifier nf =>
      exfalso
      obtain ⟨kv, hkv, hcont, _⟩ := hex
      rcases List.mem_cons.mp hkv with heq | hkv'
      · rw [heq] at hcont
        simp [coinContinue] at hcont
      · obtain ⟨k2, v2⟩ := kv
        have hlt := hrel (k2, v2) hkv'
        cases k2 <;> simp [coinContinue] at hcont
        simp only [encC] at hlt
        have := lexLt_head hlt
        omega
    all_goals
      (have hh := hge _ (List.mem_cons_self _ _)
       simp [encC, lexLt] at hh)

/-- C7: the audit scan (CCoinsViewDB::GetStats) accumulates over exactly the
records with the coin discriminator a content hash seeded with the best-block
hash — each non-null output's 1-based index and serialized form folded in,
terminated per transaction by the sentinel index 0 — together with a
transaction count, a non-null-output count, and the total of non-null output
values; on a store holding one pruned (absent) transaction and one
transaction with a single unspent output of value V it reports
nTransactions = 1, nTransactionOutputs = 1, nTotalAmount = V; and a coin
value that fails to decode is the hard error "unable to read value", not
normal termination. -/
theorem claim_C7_getStats (db db2 : CDB) (m m0 m2 : Nat → Option Int)
    (vsize : CCoins → Nat) (ht ht0 : Int) (V : Int) (txid2 kc : Nat) (vbad : CVal)
    (hs : StSorted encC db)
    (hdec : ∀ kv ∈ db, coinContinue kv.1 = true → (coinExtract kv.1 kv.2).isSome = true)
    (hm : m (CCoinsViewDB.GetBestBlock db) = some ht)
    (hV : V ≠ -1) (hm0 : m0 0 = some ht0)
    (hs2 : StSorted encC db2) (hbad : (CKey.coin kc, vbad) ∈ db2)
    (hbadv : coinExtract (CKey.coin kc) vbad = none) :
    CCoinsViewDB.GetStats db m vsize =
      .ok (statsSpec (CCoinsViewDB.GetBestBlock db) ht vsize
        (db.filterMap (fun kv =>
          if coinContinue kv.1 then coinExtract kv.1 kv.2 else none)))
    ∧ CCoinsViewDB.GetStats [(CKey.coin txid2, CVal.coins ⟨[⟨V, [1]⟩]⟩)] m0 vsize =
      .ok ⟨0, 1, 1, 32 + vsize ⟨[⟨V, [1]⟩]⟩,
        [HashItem.hashOf 0, HashItem.varint 1, HashItem.txout ⟨V, [1]⟩,
          HashItem.varint 0], ht0, V⟩
    ∧ CCoinsViewDB.GetStats db2 m2 vsize =
      .error (GetStatsFailure.readValue
        "CCoinsViewDB::GetStats() : unable to read value") := by
  refine ⟨?_, ?_, ?_⟩
  · have hmain := scanG_seek encC coinContinue coinExtract
      "CCoinsViewDB::GetStats() : unable to read value" coinContinue [99] db hs
      ?h1 (fun _ _ _ => rfl) ?h3 hdec
    case h1 =>
      intro kv hmm hlt
      obtain ⟨k, v⟩ := kv
      cases k <;> simp [encC, lexLt] at hlt <;> rfl
    case h3 =>
      intro kv kv2 hm1 hm2 hge1 hp1 hlt
      obtain ⟨k1, v1⟩ := kv
      obtain ⟨k2, v2⟩ := kv2
      cases k1
      case coin txid => simp [coinContinue] at hp1
      case nullifier nf =>
        cases k2
        case coin txid3 =>
          simp only [encC] at hlt
          have := lexLt_head hlt
          omega
        all_goals rfl
      all_goals (simp [encC, lexLt] at hge1)
    have hscan : statsScan vsize (seekL encC [99] db) =
        .ok (statsFold vsize (db.filterMap (fun kv =>
          if coinContinue kv.1 then coinExtract kv.1 kv.2 else none))) := by
      rw [statsScan_eq_scanG, hmain, exceptMap_ok]
    simp only [CCoinsViewDB.GetStats, hscan, hm, statsSpec]
  · have hnull : (⟨V, [1]⟩ : CTxOut).IsNull = false := by
      simp [CTxOut.IsNull, hV]
    simp [CCoinsViewDB.GetStats, CCoinsViewDB.GetBestBlock, dbLookup, statsScan,
      seekL, List.dropWhile, lexLt, encC, outLoop, hnull, hm0, exceptMap_ok]
  · have herr : statsScan vsize (seekL encC [99] db2) =
        .error "CCoinsViewDB::GetStats() : unable to read value" := by
      apply statsScan_error vsize _ (seekL_sorted _ _ hs2) (seekL_ge _ _ _ hs2)
      refine ⟨(CKey.coin kc, vbad), ?_, rfl, hbadv⟩
      apply mem_seekL _ _ hbad
      simp [encC, lexLt]
    simp only [CCoinsViewDB.GetStats, herr]

/-- Witness for C7: a store with one unspent output of value 7, the
two-transaction scenario, and a store with an undecodable coin value. -/
theorem claim_C7_getStats_witness :
    CCoinsViewDB.GetStats [(CKey.coin 4, CVal.coins ⟨[⟨7, [1]⟩]⟩)]
        (fun _ => some 2) (fun _ => 10) =
      .ok (statsSpec
        (CCoinsViewDB.GetBestBlock [(CKey.coin 4, CVal.coins ⟨[⟨7, [1]⟩]⟩)]) 2
        (fun _ => 10)
        (([(CKey.coin 4, CVal.coins ⟨[⟨7, [1]⟩]⟩)] : CDB).filterMap (fun kv =>
          if coinContinue kv.1 then coinExtract kv.1 kv.2 else none)))
    ∧ CCoinsViewDB.GetStats [(CKey.coin 4, CVal.coins ⟨[⟨7, [1]⟩]⟩)]
        (fun _ => some 3) (fun _ => 10) =
      .ok ⟨0, 1, 1, 32 + 10,
        [HashItem.hashOf 0, HashItem.varint 1, HashItem.txout ⟨7, [1]⟩,
          HashItem.varint 0], 3, 7⟩
    ∧ CCoinsViewDB.GetStats [(CKey.coin 9, CVal.corrupt)] (fun _ => some 0)
        (fun _ => 10) =
      .error (GetStatsFailure.readValue
        "CCoinsViewDB::GetStats() : unable to read value") :=
  claim_C7_getStats [(CKey.coin 4, CVal.coins ⟨[⟨7, [1]⟩]⟩)]
    [(CKey.coin 9, CVal.corrupt)] (fun _ => some 2) (fun _ => some 3)
    (fun _ => some 0) (fun _ => 10) 2 3 7 4 9 CVal.corrupt
    (by decide) (by decide) rfl (by decide) rfl (by decide) (by decide) rfl

/-! ## The block-index loader claim -/

/-- Scanning a suffix at or after the block-index seek target: if some
block-index record fails to decode or fails a consistency check, the whole
load is an error. -/
theorem loadGutsScan_error (hashHeader : CBlockHeaderFields → Nat)
    (pow : Nat → Nat → Bool) :
    ∀ (l : List (BKey × BVal)) (m : BlockMap),
      StSorted encB l →
      (∀ kv ∈ l, lexLt (encB kv.1) [98, 0] = false) →
      (∃ kv ∈ l, (∃ h, kv.1 = BKey.blockIndex h) ∧
        passesChecks hashHeader pow kv.2 = false) →
      ∃ e, loadGutsScan hashHeader pow m l = .error e := by
  intro l
  induction l with
  | nil =>
    intro m _ _ hex
    simp at hex
  | cons a t ih =>
    intro m hsort hge hex
    obtain ⟨hrel, hs'⟩ := List.pairwise_cons.mp hsort
    obtain ⟨k, v⟩ := a
    cases k
    case blockIndex hk =>
      cases v
      case diskIndex d =>
        by_cases hhash : hashHeader d.GetBlockHeader = d.blockHash
        · by_cases hpow : pow d.blockHash d.nBits = false
          · refine ⟨"LoadBlockIndex(): CheckProofOfWork failed", ?_⟩
            simp [loadGutsScan, hhash, hpow]
          · have hpt : pow d.blockHash d.nBits = true := by
              rcases h' : pow d.blockHash d.nBits with _ | _
              · exact absurd h' hpow
              · rfl
            obtain ⟨kv, hkv, hbi, hfail⟩ := hex
            rcases List.mem_cons.mp hkv with heq | hkv'
            · exfalso
              rw [heq] at hfail
              simp [passesChecks, hhash, hpt] at hfail
            · obtain ⟨e, he⟩ := ih
                (blockMapSet (InsertBlockIndex (InsertBlockIndex m d.blockHash)
                  d.hashPrev) d.blockHash (nodeOfDiskIndex d)) hs'
                (fun kv' hkv2 => hge kv' (List.mem_cons_of_mem _ hkv2))
                ⟨kv, hkv', hbi, hfail⟩
              refine ⟨e, ?_⟩
              simp [loadGutsScan, hhash, hpt, he]
        · refine ⟨"LoadBlockIndex(): block header inconsistency detected", ?_⟩
          simp [loadGutsScan, hhash]
      all_goals exact ⟨"LoadBlockIndex() : failed to read value", rfl⟩
    all_goals
      (exfalso
       obtain ⟨kv, hkv, ⟨h', hk'⟩, _⟩ := hex
       rcases List.mem_cons.mp hkv with heq | hkv'
       · rw [heq] at hk'
         simp at hk'
       · have hgh := hge _ (List.mem_cons_self _ _)
         have hlt := hrel kv hkv'
         rw [hk'] at hlt
         simp only [encB] at hgh hlt
         have h1 := not_lexLt_head hgh
         have h2 := lexLt_head hlt
         omega)

/-- Records that pass both checks are consumed by the loader without
aborting: the scan of `good ++ rest` continues into `rest` with some
accumulated block map. -/
theorem loadGutsScan_append_passes (hashHeader : CBlockHeaderFields → Nat)
    (pow : Nat → Nat → Bool) :
    ∀ (good : List (BKey × BVal)) (m : BlockMap) (rest : List (BKey × BVal)),
      (∀ kv ∈ good, (∃ h, kv.1 = BKey.blockIndex h) ∧
        passesChecks hashHeader pow kv.2 = true) →
      ∃ m', loadGutsScan hashHeader pow m (good ++ rest) =
        loadGutsScan hashHeader pow m' rest := by
  intro good
  induction good with
  | nil =>
    intro m rest _
    exact ⟨m, rfl⟩
  | cons a t ih =>
    intro m rest hall
    obtain ⟨k, v⟩ := a
    obtain ⟨⟨h', hk⟩, hpass⟩ := hall (k, v) (List.mem_cons_self _ _)
    have hk2 : k = BKey.blockIndex h' := hk
    subst hk2
    cases v
    case diskIndex d =>
      simp only [passesChecks, Bool.and_eq_true, beq_iff_eq] at hpass
      obtain ⟨hhash, hpow⟩ := hpass
      have hstep : loadGutsScan hashHeader pow m
          (((BKey.blockIndex h', BVal.diskIndex d) :: t) ++ rest) =
          loadGutsScan hashHeader pow
            (blockMapSet (InsertBlockIndex (InsertBlockIndex m d.blockHash)
              d.hashPrev) d.blockHash (nodeOfDiskIndex d)) (t ++ rest) := by
        simp [loadGutsScan, hhash, hpow]
      rw [hstep]
      exact ih _ rest (fun kv hkv => hall kv (List.mem_cons_of_mem _ hkv))
    all_goals simp [passesChecks] at hpass

/-- C2: the block-index loader (CBlockTreeDB::LoadBlockIndexGuts) validates
each record before advancing: a store containing any block-index record that
fails to decode or fails a consistency check never loads successfully; and
after any run of passing records, a record whose recomputed header hash
differs from its block hash, or whose proof-of-work check fails, or whose
value fails to decode, aborts the entire load with the corresponding error,
whatever records remain after it. -/
theorem claim_C2_loadBlockIndex (hashHeader : CBlockHeaderFields → Nat)
    (pow : Nat → Nat → Bool) (db : BDB) (m : BlockMap)
    (good rest : List (BKey × BVal)) (hk : Nat) (vbad : BVal)
    (dmis dpow : CDiskBlockIndex)
    (hs : StSorted encB db)
    (hex : ∃ kv ∈ db, (∃ h, kv.1 = BKey.blockIndex h) ∧
      passesChecks hashHeader pow kv.2 = false)
    (hgood : ∀ kv ∈ good, (∃ h, kv.1 = BKey.blockIndex h) ∧
      passesChecks hashHeader pow kv.2 = true)
    (hvbad : decodeDiskIndex vbad = none)
    (hmis : hashHeader dmis.GetBlockHeader ≠ dmis.blockHash)
    (hpok : hashHeader dpow.GetBlockHeader = dpow.blockHash)
    (hpfail : pow dpow.blockHash dpow.nBits = false) :
    (∃ e, CBlockTreeDB.LoadBlockIndexGuts hashHeader pow db = .error e)
    ∧ loadGutsScan hashHeader pow m
        (good ++ (BKey.blockIndex hk, vbad) :: rest) =
        .error "LoadBlockIndex() : failed to read value"
    ∧ loadGutsScan hashHeader pow m
        (good ++ (BKey.blockIndex hk, BVal.diskIndex dmis) :: rest) =
        .error "LoadBlockIndex(): block header inconsistency detected"
    ∧ loadGutsScan hashHeader pow m
        (good ++ (BKey.blockIndex hk, BVal.diskIndex dpow) :: rest) =
        .error "LoadBlockIndex(): CheckProofOfWork failed" := by
  refine ⟨?_, ?_, ?_, ?_⟩
  · rw [CBlockTreeDB.LoadBlockIndexGuts]
    apply loadGutsScan_error hashHeader pow (seekL encB [98, 0] db) []
      (seekL_sorted _ _ hs) (seekL_ge _ _ _ hs)
    obtain ⟨⟨k, v⟩, hkv, ⟨h', hk'⟩, hfail⟩ := hex
    refine ⟨(k, v), ?_, ⟨h', hk'⟩, hfail⟩
    apply mem_seekL _ _ hkv
    rw [hk']
    simp [encB, lexLt]
  · obtain ⟨m', hm'⟩ := loadGutsScan_append_passes hashHeader pow good m
      ((BKey.blockIndex hk, vbad) :: rest) hgood
    rw [hm']
    cases vbad <;> simp_all [decodeDiskIndex, loadGutsScan]
  · obtain ⟨m', hm'⟩ := loadGutsScan_append_passes hashHeader pow good m
      ((BKey.blockIndex hk, BVal.diskIndex dmis) :: rest) hgood
    rw [hm']
    simp [loadGutsScan, hmis]
  · obtain ⟨m', hm'⟩ := loadGutsScan_append_passes hashHeader pow good m
      ((BKey.blockIndex hk, BVal.diskIndex dpow) :: rest) hgood
    rw [hm']
    simp [loadGutsScan, hpok, hpfail]

/-- Witness for C2 with the constant-zero header hash and always-failing
proof-of-work check, on a store holding one undecodable block-index record
and on explicit one-record scans. -/
theorem claim_C2_loadBlockIndex_witness :
    (∃ e, CBlockTreeDB.LoadBlockIndexGuts (fun _ => 0) (fun _ _ => false)
        [(BKey.blockIndex 5, BVal.corrupt)] = .error e)
    ∧ loadGutsScan (fun _ => 0) (fun _ _ => false) []
        ([] ++ (BKey.blockIndex 5, BVal.corrupt) :: []) =
        .error "LoadBlockIndex() : failed to read value"
    ∧ loadGutsScan (fun _ => 0) (fun _ _ => false) []
        ([] ++ (BKey.blockIndex 5,
          BVal.diskIndex ⟨1, 0, 0, 0, 0, 0, 0, 0, 0, 0, 0, 0, 0, [], 0, none, 0, none⟩)
          :: []) =
        .error "LoadBlockIndex(): block header inconsistency detected"
    ∧ loadGutsScan (fun _ => 0) (fun _ _ => false) []
        ([] ++ (BKey.blockIndex 5,
          BVal.diskIndex ⟨0, 0, 0, 0, 0, 0, 0, 0, 0, 0, 0, 0, 0, [], 0, none, 0, none⟩)
          :: []) =
        .error "LoadBlockIndex(): CheckProofOfWork failed" :=
  claim_C2_loadBlockIndex (fun _ => 0) (fun _ _ => false)
    [(BKey.blockIndex 5, BVal.corrupt)] [] [] [] 5 BVal.corrupt
    ⟨1, 0, 0, 0, 0, 0, 0, 0, 0, 0, 0, 0, 0, [], 0, none, 0, none⟩
    ⟨0, 0, 0, 0, 0, 0, 0, 0, 0, 0, 0, 0, 0, [], 0, none, 0, none⟩
    (by decide)
    ⟨(BKey.blockIndex 5, BVal.corrupt), by decide, ⟨5, rfl⟩, rfl⟩
    (by simp) rfl (by decide) rfl rfl
